import Mathlib

/-!
DC26 party badge, `Software/utility.c`.

A shallow embedding of the button reader `getButton`, of the on-screen string
editor `getString`, of the LED encoders, of the file lister `getFiles` and of
the CRC-16 routines, followed by the properties proved about them.

The header `common.h` is not part of the sources at hand, so every macro it
defines (pin numbers, timing thresholds, the long-press mask, the allowed
character range) is a field of `Config`.  Hardware reads are supplied by a
stream of pin samples: the `n`-th call of `nrf_gpio_pin_read` made during a
call sees the `n`-th sample.
-/

namespace Utility

/-- Constants of `common.h` used by `utility.c`.  Pin numbers double as button
identifiers.  The two thresholds are durations in milliseconds.
`CHAR_SIGNED` records whether plain `char` is signed on the target. -/
structure Config where
  USER_BUTTON_UP : Nat
  USER_BUTTON_DOWN : Nat
  USER_BUTTON_LEFT : Nat
  USER_BUTTON_RIGHT : Nat
  USER_BUTTON_A : Nat
  USER_BUTTON_B : Nat
  BUTTON_PRESSED : Nat
  BUTTON_DEBOUNCE_MS : Nat
  BUTTON_LONG_PRESS_MS : Nat
  LONG_PRESS_MASK : Nat
  FIRST_ALLOWED_CHAR : Int
  LAST_ALLOWED_CHAR : Int
  CHAR_SIGNED : Bool

/-- Pin samples: `w n pin` is the level returned by the `n`-th call of
`nrf_gpio_pin_read` when that call reads `pin`. -/
abbrev PinSamples := Nat → Nat → Nat

/-- Local state of one `getButton` call: the two locals `longPress` and
`button`, the number of pin reads made so far and the total of the arguments
passed to `nrf_delay_ms`.  The `int` counter `longPress` starts at 0 and is
only ever incremented, so it is a natural number. -/
structure ButtonState where
  reads : Nat
  delayMs : Nat
  longPress : Nat
  button : Nat
deriving DecidableEq, Repr

/-- The six buttons in the order in which `getButton` scans them. -/
def scanOrder (cfg : Config) : List Nat :=
  [cfg.USER_BUTTON_UP, cfg.USER_BUTTON_DOWN, cfg.USER_BUTTON_LEFT,
   cfg.USER_BUTTON_RIGHT, cfg.USER_BUTTON_A, cfg.USER_BUTTON_B]

/-- The function `isButtonDown(button)`: one pin read, compared with
`BUTTON_PRESSED`. -/
def isButtonDown (cfg : Config) (w : PinSamples) (button : Nat) (s : ButtonState) :
    Bool × ButtonState :=
  (decide (w s.reads button = cfg.BUTTON_PRESSED), { s with reads := s.reads + 1 })

/-- The delay `nrf_delay_ms(ms)`, recorded in the running total. -/
def nrf_delay_ms (ms : Nat) (s : ButtonState) : ButtonState :=
  { s with delayMs := s.delayMs + ms }

/-- The hold loop of one button block:
`while (isButtonDown(b)) { nrf_delay_ms(1); longPress++; if (longPress > BUTTON_LONG_PRESS_MS) break; }`.
It terminates because every iteration that does not leave the loop has
`longPress` still at most the threshold. -/
def holdLoop (cfg : Config) (w : PinSamples) (button : Nat) (s : ButtonState) : ButtonState :=
  if (isButtonDown cfg w button s).1 then
    if s.longPress + 1 > cfg.BUTTON_LONG_PRESS_MS then
      { nrf_delay_ms 1 (isButtonDown cfg w button s).2 with longPress := s.longPress + 1 }
    else
      holdLoop cfg w button
        { nrf_delay_ms 1 (isButtonDown cfg w button s).2 with longPress := s.longPress + 1 }
  else (isButtonDown cfg w button s).2
termination_by cfg.BUTTON_LONG_PRESS_MS - s.longPress
decreasing_by
  simp only [nrf_delay_ms, isButtonDown] at *
  omega

/-- One of the six button blocks of `getButton` (they differ only in the
button): first read, debounce delay, second read, assignment to `button`, and
the hold loop when `waitForLongPress` is set. -/
def scanButton (cfg : Config) (w : PinSamples) (waitForLongPress : Bool) (b : Nat)
    (s : ButtonState) : ButtonState :=
  let r1 := isButtonDown cfg w b s
  if r1.1 then
    let s1 := nrf_delay_ms cfg.BUTTON_DEBOUNCE_MS r1.2
    let r2 := isButtonDown cfg w b s1
    if r2.1 then
      let s2 := { r2.2 with button := b }
      if waitForLongPress then holdLoop cfg w b s2 else s2
    else r2.2
  else r1.2

/-- The state of `getButton` after the six blocks, before the final test of
`longPress`. -/
def getButtonScan (cfg : Config) (w : PinSamples) (waitForLongPress : Bool) : ButtonState :=
  let s0 : ButtonState := { reads := 0, delayMs := 0, longPress := 0, button := 0 }
  let s1 := scanButton cfg w waitForLongPress cfg.USER_BUTTON_UP s0
  let s2 := scanButton cfg w waitForLongPress cfg.USER_BUTTON_DOWN s1
  let s3 := scanButton cfg w waitForLongPress cfg.USER_BUTTON_LEFT s2
  let s4 := scanButton cfg w waitForLongPress cfg.USER_BUTTON_RIGHT s3
  let s5 := scanButton cfg w waitForLongPress cfg.USER_BUTTON_A s4
  scanButton cfg w waitForLongPress cfg.USER_BUTTON_B s5

/-- The value `getButton` returns for final locals `button` and `longPress`:
the mask is OR-ed in when the counter exceeds the threshold, and the `int` is
converted to the `uint8_t` return type. -/
def buttonResult (cfg : Config) (s : ButtonState) : Nat :=
  (if s.longPress > cfg.BUTTON_LONG_PRESS_MS then s.button ||| cfg.LONG_PRESS_MASK
   else s.button) % 256

/-- The function `uint8_t getButton(bool waitForLongPress)`: the six blocks,
then lines 155-159. -/
def getButton (cfg : Config) (w : PinSamples) (waitForLongPress : Bool) : Nat :=
  buttonResult cfg (getButtonScan cfg w waitForLongPress)

/-! ## The string editor `getString` -/

/-- Conversion of an `int` value to plain `char`, which is what an assignment
to a cell of `char string[32]` does. -/
def toChar (cfg : Config) (x : Int) : Int :=
  if cfg.CHAR_SIGNED then (x + 128) % 256 - 128 else x % 256

/-- Program points at which `getString` waits for the next `getButton(false)`
result: the `switch` of line 284, one of the four release loops
`while (getButton(false) == b) {}`, and the point after the final copy. -/
inductive Phase where
  | poll
  | release (b : Nat)
  | returned
deriving DecidableEq, Repr

/-- The locals `curIndex`, `string` and `done` of `getString`, with the
program point the call is at. -/
structure EditState where
  curIndex : Nat
  string : Nat → Int
  done : Bool
  phase : Phase

/-- The assignment `string[curIndex] = c`. -/
def writeCursor (s : EditState) (c : Int) : EditState :=
  { s with string := Function.update s.string s.curIndex c }

/-- Lines 241-243: `if (string[curIndex] == 0) string[curIndex] = ' ';`. -/
def blankSentinel (s : EditState) : EditState :=
  if s.string s.curIndex = 0 then writeCursor s 32 else s

/-- Leaving the inner `while (waitForButton)` loop: the test `while (!done)`
either ends the session (final copy, line 345) or starts the next pass of the
outer loop, which first replaces a sentinel under the cursor and then polls. -/
def nextPass (s : EditState) : EditState :=
  if s.done then { s with phase := Phase.returned }
  else { blankSentinel s with phase := Phase.poll }

/-- The increment `string[curIndex]++` followed by the wrap test of the `USER_BUTTON_UP` case. -/
def charUp (cfg : Config) (c : Int) : Int :=
  if toChar cfg (c + 1) > cfg.LAST_ALLOWED_CHAR then toChar cfg cfg.FIRST_ALLOWED_CHAR
  else toChar cfg (c + 1)

/-- The decrement `string[curIndex]--` followed by the wrap test of the `USER_BUTTON_DOWN` case. -/
def charDown (cfg : Config) (c : Int) : Int :=
  if toChar cfg (c - 1) < cfg.FIRST_ALLOWED_CHAR then toChar cfg cfg.LAST_ALLOWED_CHAR
  else toChar cfg (c - 1)

/-- The effect of one `getButton(false)` result `r` on the editor, by program
point.  In the `switch` the cases are tried in the order of the source; the
`default` case leaves the editor polling. -/
def editorStep (cfg : Config) (chars : Nat) (s : EditState) (r : Nat) : EditState :=
  match s.phase with
  | Phase.returned => s
  | Phase.release b => if r = b then s else nextPass s
  | Phase.poll =>
    if r = cfg.USER_BUTTON_A then
      { s with done := true, phase := Phase.release cfg.USER_BUTTON_A }
    else if r = cfg.USER_BUTTON_B then
      { s with done := true, phase := Phase.release cfg.USER_BUTTON_B }
    else if r = cfg.USER_BUTTON_UP then
      nextPass (writeCursor s (charUp cfg (s.string s.curIndex)))
    else if r = cfg.USER_BUTTON_DOWN then
      nextPass (writeCursor s (charDown cfg (s.string s.curIndex)))
    else if r = cfg.USER_BUTTON_RIGHT then
      { s with
        curIndex :=
          if s.string s.curIndex ≠ 32 then
            if (s.curIndex : Int) < (chars : Int) - 1 then s.curIndex + 1 else s.curIndex
          else s.curIndex,
        phase := Phase.release cfg.USER_BUTTON_RIGHT }
    else if r = cfg.USER_BUTTON_LEFT then
      { s with
        curIndex := if s.curIndex > 0 then s.curIndex - 1 else s.curIndex,
        phase := Phase.release cfg.USER_BUTTON_LEFT }
    else s

/-- The editor on entry to the first poll: `curIndex = 0`, `done = false`,
`memcpy(string, retString, chars)` over the indeterminate contents `stack` of
the local array, and the first sentinel replacement. -/
def editorStart (retString stack : Nat → Int) (chars : Nat) : EditState :=
  nextPass
    { curIndex := 0
      string := fun i => if i < chars then retString i else stack i
      done := false
      phase := Phase.poll }

/-- The editor after the successive `getButton(false)` results `readings`. -/
def runEditor (cfg : Config) (chars : Nat) (s : EditState) (readings : List Nat) : EditState :=
  readings.foldl (editorStep cfg chars) s

/-- The function `void getString(char *retString, uint8_t chars, bool showScroll)` on the
results `readings` of its `getButton(false)` calls: the caller's storage after
the call, or `none` while the call is still waiting for a button.  The
argument `showScroll` only selects what is drawn and is left out, as is the
drawing.  The local array has 32 cells, so the embedding describes calls with
`chars ≤ 32`. -/
def getString (cfg : Config) (retString stack : Nat → Int) (chars : Nat)
    (readings : List Nat) : Option (Nat → Int) :=
  let s := runEditor cfg chars (editorStart retString stack chars) readings
  if s.phase = Phase.returned then
    some (fun i => if i < chars then s.string i else retString i)
  else none

/-- The editor driven by the hardware: the `n`-th `getButton(false)` call made
by `getString` sees the pin samples `calls[n]`. -/
def getStringOnPins (cfg : Config) (retString stack : Nat → Int) (chars : Nat)
    (calls : List PinSamples) : Option (Nat → Int) :=
  getString cfg retString stack chars (calls.map (fun w => getButton cfg w false))

/-! ## Auxiliary definitions used to state the properties -/

/-- The value returned for identifier `b`: with the mask OR-ed in when `long`
is set, converted to `uint8_t`. -/
def reading (cfg : Config) (b : Nat) (long : Bool) : Nat :=
  (if long then b ||| cfg.LONG_PRESS_MASK else b) % 256

/-- The buttons of the scan order that a fixed pin state `ps` shows asserted. -/
def asserted (cfg : Config) (ps : Nat → Nat) : List Nat :=
  (scanOrder cfg).filter (fun b => decide (ps b = cfg.BUTTON_PRESSED))

/-- The state of `getButton` on entry to its `k`-th block (`k = 0` is the
block of `USER_BUTTON_UP`); `blockEntry 6` is the state after the last block. -/
def blockEntry (cfg : Config) (w : PinSamples) (waitForLongPress : Bool) : Nat → ButtonState
  | 0 => { reads := 0, delayMs := 0, longPress := 0, button := 0 }
  | k + 1 =>
    scanButton cfg w waitForLongPress ((scanOrder cfg).getD k 0)
      (blockEntry cfg w waitForLongPress k)

/-- The `k`-th button was read asserted both before and after its debounce
delay, at the two reads its block makes first. -/
def debounced (cfg : Config) (w : PinSamples) (waitForLongPress : Bool) (k : Nat) : Prop :=
  w (blockEntry cfg w waitForLongPress k).reads ((scanOrder cfg).getD k 0) = cfg.BUTTON_PRESSED ∧
  w ((blockEntry cfg w waitForLongPress k).reads + 1) ((scanOrder cfg).getD k 0)
    = cfg.BUTTON_PRESSED

instance (cfg : Config) (w : PinSamples) (wl : Bool) (k : Nat) : Decidable (debounced cfg w wl k) := by
  unfold debounced; infer_instance

/-- The character `c` lies in `[FIRST_ALLOWED_CHAR, LAST_ALLOWED_CHAR]`. -/
def allowed (cfg : Config) (c : Int) : Prop :=
  cfg.FIRST_ALLOWED_CHAR ≤ c ∧ c ≤ cfg.LAST_ALLOWED_CHAR

instance (cfg : Config) (c : Int) : Decidable (allowed cfg c) := by
  unfold allowed; infer_instance

/-- Every one of the first `chars` cells of the working buffer holds an allowed
character or is a sentinel 0 that the caller supplied at that position and that
no pass has replaced yet; the cursor is below `chars`. -/
def bufferOk (cfg : Config) (retString : Nat → Int) (chars : Nat) (s : EditState) : Prop :=
  s.curIndex < chars ∧
  ∀ i, i < chars → allowed cfg (s.string i) ∨ (s.string i = 0 ∧ retString i = 0)

/-- The largest cursor index among the states the editor passes through,
from `s` on, while it takes the results `readings`. -/
def maxCursor (cfg : Config) (chars : Nat) : EditState → List Nat → Nat
  | s, [] => s.curIndex
  | s, r :: rs => max s.curIndex (maxCursor cfg chars (editorStep cfg chars s r) rs)

/-! ## CRC-16: `crc16` and `calcCRC` -/

/-- One pass of the `for` loop of `crc16` on the pair of `crcValue` (a
`uint16_t`) and `newByte` (a `uint8_t`): the test of the top bit of `crcValue`
against the top bit of `newByte`, the shift with or without `POLYNOM`, and
`newByte <<= 1`.  The shifts are computed in `int` and cut to the width of the
variable on assignment. -/
def crc16Pass (POLYNOM : Nat) (st : Nat × Nat) : Nat × Nat :=
  (if ((st.1 &&& 0x8000) >>> 8) ^^^ (st.2 &&& 0x80) ≠ 0 then
      ((st.1 <<< 1) ^^^ POLYNOM) % 65536
    else (st.1 <<< 1) % 65536,
   (st.2 <<< 1) % 256)

/-- The function `uint16_t crc16(uint16_t crcValue, uint8_t newByte)`: eight
passes of the loop.  The macro `POLYNOM` of `common.h` is a parameter. -/
def crc16 (POLYNOM crcValue newByte : Nat) : Nat :=
  ((crc16Pass POLYNOM)^[8] (crcValue, newByte)).1

/-- The loop `while (aux < len) { crc = crc16(crc, data[aux]); aux++; }` of
`calcCRC`.  The counter `aux` is a `uint8_t` like `len`, so `aux + 1` does not
wrap while `aux < len`. -/
def calcCRCLoop (POLYNOM : Nat) (data : Nat → Nat) (len : Nat) (aux crc : Nat) : Nat :=
  if aux < len then calcCRCLoop POLYNOM data len (aux + 1) (crc16 POLYNOM crc (data aux))
  else crc
termination_by len - aux

/-- The function `uint16_t calcCRC(uint8_t *data, uint8_t len)`: the loop from
`aux = 0` and `crc = 0x0000`. -/
def calcCRC (POLYNOM : Nat) (data : Nat → Nat) (len : Nat) : Nat :=
  calcCRCLoop POLYNOM data len 0 0

/-- The step of the textbook CRC as the specification words it: shift left by
one modulo `2 ^ 16`, and XOR with `POLYNOM` when the bit shifted out was 1. -/
def crcShift (POLYNOM s : Nat) : Nat :=
  if s &&& 0x8000 ≠ 0 then ((s <<< 1) % 65536) ^^^ POLYNOM else (s <<< 1) % 65536

/-- The textbook MSB-first CRC-16 of one byte as the specification words it:
XOR the byte into the high byte of the value, then apply the step eight
times. -/
def crc16Textbook (POLYNOM crcValue newByte : Nat) : Nat :=
  (crcShift POLYNOM)^[8] (crcValue ^^^ (newByte <<< 8))

/-- The step of `crc16` seen on the value with the pending byte XOR-ed into its
high byte; it differs from `crcShift` only in cutting to 16 bits after the XOR
with `POLYNOM`. -/
def crcShiftT (P s : Nat) : Nat :=
  if s &&& 0x8000 ≠ 0 then ((s <<< 1) ^^^ P) % 65536 else (s <<< 1) % 65536

/-! ## The LED encoders `setLevelLEDs` and `setPowerUpLEDs` -/

/-- A call of `nrf_gpio_pin_set` or of `nrf_gpio_pin_clear` on an output pin. -/
inductive GpioWrite where
  | pinSet (pin : Nat)
  | pinClear (pin : Nat)
deriving DecidableEq, Repr

/-- The pin numbers of the eight indicator LEDs, macros of `common.h`. -/
structure LedPins where
  LED_LEVEL_UP_0 : Nat
  LED_LEVEL_UP_1 : Nat
  LED_LEVEL_UP_2 : Nat
  LED_LEVEL_UP_3 : Nat
  LED_POWER_UP_0 : Nat
  LED_POWER_UP_1 : Nat
  LED_POWER_UP_2 : Nat
  LED_POWER_UP_3 : Nat

/-- The enumeration `LEVEL` of `common.h`: its five named constants, and
`other` for any value that is none of them (the `default` label). -/
inductive LEVEL where
  | LEVEL0
  | LEVEL1
  | LEVEL2
  | LEVEL3
  | LEVEL4
  | other
deriving DecidableEq, Repr

/-- The enumeration `POWERUP` of `common.h`: its five named constants, and
`other` for any value that is none of them (the `default` label). -/
inductive POWERUP where
  | POWERUP_0
  | POWERUP_1
  | POWERUP_2
  | POWERUP_3
  | POWERUP_4
  | other
deriving DecidableEq, Repr

/-- The function `void setLevelLEDs(LEVEL level)`: the pin writes it makes, in
order. -/
def setLevelLEDs (pins : LedPins) : LEVEL → List GpioWrite
  | LEVEL.other =>
    [GpioWrite.pinSet pins.LED_LEVEL_UP_0, GpioWrite.pinSet pins.LED_LEVEL_UP_1,
     GpioWrite.pinSet pins.LED_LEVEL_UP_2, GpioWrite.pinSet pins.LED_LEVEL_UP_3]
  | LEVEL.LEVEL0 =>
    [GpioWrite.pinSet pins.LED_LEVEL_UP_0, GpioWrite.pinSet pins.LED_LEVEL_UP_1,
     GpioWrite.pinSet pins.LED_LEVEL_UP_2, GpioWrite.pinSet pins.LED_LEVEL_UP_3]
  | LEVEL.LEVEL1 =>
    [GpioWrite.pinClear pins.LED_LEVEL_UP_0, GpioWrite.pinSet pins.LED_LEVEL_UP_1,
     GpioWrite.pinSet pins.LED_LEVEL_UP_2, GpioWrite.pinSet pins.LED_LEVEL_UP_3]
  | LEVEL.LEVEL2 =>
    [GpioWrite.pinClear pins.LED_LEVEL_UP_0, GpioWrite.pinClear pins.LED_LEVEL_UP_1,
     GpioWrite.pinSet pins.LED_LEVEL_UP_2, GpioWrite.pinSet pins.LED_LEVEL_UP_3]
  | LEVEL.LEVEL3 =>
    [GpioWrite.pinClear pins.LED_LEVEL_UP_0, GpioWrite.pinClear pins.LED_LEVEL_UP_1,
     GpioWrite.pinClear pins.LED_LEVEL_UP_2, GpioWrite.pinSet pins.LED_LEVEL_UP_3]
  | LEVEL.LEVEL4 =>
    [GpioWrite.pinClear pins.LED_LEVEL_UP_0, GpioWrite.pinClear pins.LED_LEVEL_UP_1,
     GpioWrite.pinClear pins.LED_LEVEL_UP_2, GpioWrite.pinClear pins.LED_LEVEL_UP_3]

/-- The function `void setPowerUpLEDs(POWERUP powerUp)`: the pin writes it
makes, in order. -/
def setPowerUpLEDs (pins : LedPins) : POWERUP → List GpioWrite
  | POWERUP.other =>
    [GpioWrite.pinSet pins.LED_POWER_UP_0, GpioWrite.pinSet pins.LED_POWER_UP_1,
     GpioWrite.pinSet pins.LED_POWER_UP_2, GpioWrite.pinSet pins.LED_POWER_UP_3]
  | POWERUP.POWERUP_0 =>
    [GpioWrite.pinSet pins.LED_POWER_UP_0, GpioWrite.pinSet pins.LED_POWER_UP_1,
     GpioWrite.pinSet pins.LED_POWER_UP_2, GpioWrite.pinSet pins.LED_POWER_UP_3]
  | POWERUP.POWERUP_1 =>
    [GpioWrite.pinClear pins.LED_POWER_UP_0, GpioWrite.pinSet pins.LED_POWER_UP_1,
     GpioWrite.pinSet pins.LED_POWER_UP_2, GpioWrite.pinSet pins.LED_POWER_UP_3]
  | POWERUP.POWERUP_2 =>
    [GpioWrite.pinClear pins.LED_POWER_UP_0, GpioWrite.pinClear pins.LED_POWER_UP_1,
     GpioWrite.pinSet pins.LED_POWER_UP_2, GpioWrite.pinSet pins.LED_POWER_UP_3]
  | POWERUP.POWERUP_3 =>
    [GpioWrite.pinClear pins.LED_POWER_UP_0, GpioWrite.pinClear pins.LED_POWER_UP_1,
     GpioWrite.pinClear pins.LED_POWER_UP_2, GpioWrite.pinSet pins.LED_POWER_UP_3]
  | POWERUP.POWERUP_4 =>
    [GpioWrite.pinClear pins.LED_POWER_UP_0, GpioWrite.pinClear pins.LED_POWER_UP_1,
     GpioWrite.pinClear pins.LED_POWER_UP_2, GpioWrite.pinClear pins.LED_POWER_UP_3]

/-- The `LEVEL` constant for the level `n`. -/
def levelOf : Nat → LEVEL
  | 0 => LEVEL.LEVEL0
  | 1 => LEVEL.LEVEL1
  | 2 => LEVEL.LEVEL2
  | 3 => LEVEL.LEVEL3
  | 4 => LEVEL.LEVEL4
  | _ => LEVEL.other

/-- The `POWERUP` constant for the power-up count `n`. -/
def powerUpOf : Nat → POWERUP
  | 0 => POWERUP.POWERUP_0
  | 1 => POWERUP.POWERUP_1
  | 2 => POWERUP.POWERUP_2
  | 3 => POWERUP.POWERUP_3
  | 4 => POWERUP.POWERUP_4
  | _ => POWERUP.other

/-- The pin a write drives. -/
def GpioWrite.pin : GpioWrite → Nat
  | GpioWrite.pinSet p => p
  | GpioWrite.pinClear p => p

/-- A line is lit when it is driven by `nrf_gpio_pin_clear`. -/
def GpioWrite.lit : GpioWrite → Bool
  | GpioWrite.pinSet _ => false
  | GpioWrite.pinClear _ => true

/-- The ordinals of the writes of a sequence that light their line. -/
def litLines (ops : List GpioWrite) : List Nat :=
  (List.range ops.length).filter (fun k => ((ops.map GpioWrite.lit).getD k false))

/-! ## The file lister `getFiles` -/

/-- The two constants of the FatFs header that `getFiles` uses. -/
structure FsConsts where
  FR_OK : Nat
  AM_DIR : Nat

/-- The fields of `FILINFO` that `getFiles` reads: the name, as the characters
before its terminating NUL, and the attribute byte. -/
structure FILINFO where
  fname : List Char
  fattrib : Nat
deriving DecidableEq, Repr

/-- What one call of `f_readdir` hands back: its result code and the entry. -/
structure DirRead where
  ff_result : Nat
  fno : FILINFO
deriving DecidableEq, Repr

/-- The directory as `getFiles` sees it: `dir n` is what the `n`-th call of
`f_readdir` hands back. -/
abbrev DirStream := Nat → DirRead

/-- The library function `strrchr(s, c)` as the index of the last occurrence
of `c` in `s`, `none` standing for the null pointer. -/
def strrchr : List Char → Char → Option Nat
  | [], _ => none
  | x :: xs, c =>
    match strrchr xs c with
    | some k => some (k + 1)
    | none => if x = c then some 0 else none

/-- The variables of the loop of `getFiles`: the array `files` as flat memory
(row `r` of `char files[][9]` starts at offset `9 * r`), `counter`, and the
number of `f_readdir` calls made. -/
structure FilesState where
  files : Nat → Char
  counter : Nat
  reads : Nat

/-- The copy `memcpy(&files[counter++], fno.fname, n)`. -/
def copyName (s : FilesState) (fname : List Char) (n : Nat) : FilesState :=
  { s with
    files := fun a =>
      if 9 * s.counter ≤ a ∧ a < 9 * s.counter + n then fname.getD (a - 9 * s.counter) ' '
      else s.files a,
    counter := s.counter + 1 }

/-- The loop `for (i = 0; i < fileMax; i++)` of `getFiles` with `n` passes
still to go.  The result is `none` when `strrchr` finds no `'.'` in the name of
a file, where the source goes on to read through a pointer made from the null
pointer. -/
def getFilesLoop (c : FsConsts) (dir : DirStream) : Nat → FilesState → Option FilesState
  | 0, s => some s
  | n + 1, s =>
    let r := dir s.reads
    let s1 := { s with reads := s.reads + 1 }
    if r.ff_result ≠ c.FR_OK ∨ r.fno.fname = [] then some s1
    else if r.fno.fattrib &&& c.AM_DIR ≠ 0 then getFilesLoop c dir n s1
    else
      match strrchr r.fno.fname '.' with
      | none => none
      | some k =>
        if r.fno.fname.drop (k + 1) = ['R', 'A', 'W'] then
          getFilesLoop c dir n (copyName s1 r.fno.fname k)
        else getFilesLoop c dir n s1

/-- What a call of `getFiles` leaves behind: the value returned, the array
`files`, the number of `f_readdir` calls made, and whether the message was
printed and the directory closed. -/
structure FilesResult where
  ret : Nat
  files : Nat → Char
  reads : Nat
  printed : Bool
  closed : Bool

/-- The function `uint8_t getFiles(char files[][9], char *path, uint8_t fileMax)`.
The file system answers for `path` with the result `openResult` of `f_opendir`
and the stream `dir` of directory reads. -/
def getFiles (c : FsConsts) (openResult : Nat) (dir : DirStream) (files : Nat → Char)
    (fileMax : Nat) : Option FilesResult :=
  if openResult ≠ 0 then
    some { ret := 0, files := files, reads := 0, printed := true, closed := false }
  else
    match getFilesLoop c dir fileMax { files := files, counter := 0, reads := 0 } with
    | none => none
    | some s =>
      some { ret := s.counter, files := s.files, reads := s.reads, printed := false,
             closed := true }

/-- The entry is a file whose name ends in the extension `RAW`. -/
def isRawFile (c : FsConsts) (r : DirRead) : Bool :=
  decide (r.fno.fattrib &&& c.AM_DIR = 0) &&
  match strrchr r.fno.fname '.' with
  | none => false
  | some k => decide (r.fno.fname.drop (k + 1) = ['R', 'A', 'W'])

/-- The read succeeded and is not the end of the directory. -/
def isEntry (c : FsConsts) (r : DirRead) : Bool :=
  decide (r.ff_result = c.FR_OK) && decide (r.fno.fname ≠ [])

/-- The entries handed back by the reads `i, i + 1, ..., i + n - 1`, up to the
first read error or end of directory. -/
def scanned (c : FsConsts) (dir : DirStream) (i n : Nat) : List DirRead :=
  ((List.range' i n).map dir).takeWhile (isEntry c)

/-- The stream of a directory that holds the entries `es`: they are read in
order with result `ok`, and every later read reports the end of the directory
with an empty name. -/
def dirOfEntries (ok : Nat) (es : List FILINFO) : DirStream :=
  fun n => { ff_result := ok, fno := es.getD n { fname := [], fattrib := 0 } }

/-! ## Sample constants and inputs -/

/-- A sample set of constants: active-low buttons on pins 1 to 6, a threshold
of 2 ms, mask `0x80`, printable ASCII as the allowed range. -/
def sampleConfig : Config :=
  { USER_BUTTON_UP := 1, USER_BUTTON_DOWN := 2, USER_BUTTON_LEFT := 3, USER_BUTTON_RIGHT := 4,
    USER_BUTTON_A := 5, USER_BUTTON_B := 6, BUTTON_PRESSED := 0, BUTTON_DEBOUNCE_MS := 15,
    BUTTON_LONG_PRESS_MS := 2, LONG_PRESS_MASK := 128, FIRST_ALLOWED_CHAR := 32,
    LAST_ALLOWED_CHAR := 126, CHAR_SIGNED := false }

/-- A pin state with UP and DOWN both held and the other four buttons released. -/
def upAndDownHeld : Nat → Nat := fun p => if p = 1 ∨ p = 2 then 0 else 1

/-- The editor on entry to its first poll for the three-character buffer
`"AAA"`. -/
def sampleEditor : EditState := editorStart (fun _ => 65) (fun _ => 0) 3

/-- Pin samples for a thumb rolling from UP to DOWN: UP reads asserted on reads
0 to 3 and released from read 4 on, DOWN reads asserted on reads 5 to 7 only,
nothing else is ever asserted. -/
def leakSamples : PinSamples := fun n p =>
  if (p = 1 ∧ n ≤ 3) ∨ (p = 2 ∧ 5 ≤ n ∧ n ≤ 7) then 0 else 1


/-- The FatFs constants `FR_OK = 0` and `AM_DIR = 0x10`. -/
def fatFs : FsConsts := { FR_OK := 0, AM_DIR := 16 }

/-- A directory with the text file `NOTES.TXT` followed by the sound file
`A.RAW`. -/
def sampleDir : List FILINFO :=
  [{ fname := ['N', 'O', 'T', 'E', 'S', '.', 'T', 'X', 'T'], fattrib := 0 },
   { fname := ['A', '.', 'R', 'A', 'W'], fattrib := 0 }]

/-- Sample LED pins 10 to 17. -/
def samplePins : LedPins :=
  { LED_LEVEL_UP_0 := 10, LED_LEVEL_UP_1 := 11, LED_LEVEL_UP_2 := 12, LED_LEVEL_UP_3 := 13,
    LED_POWER_UP_0 := 14, LED_POWER_UP_1 := 15, LED_POWER_UP_2 := 16, LED_POWER_UP_3 := 17 }

/-- A pin state with all six buttons held. -/
def allHeld : Nat → Nat := fun _ => 0

/-- A pin state with UP held and the other five buttons released. -/
def upHeld : Nat → Nat := fun p => if p = 1 then 0 else 1

/-! ## Facts about `getButton` -/

theorem holdLoop_button (cfg : Config) (w : PinSamples) (b : Nat) (s : ButtonState) :
    (holdLoop cfg w b s).button = s.button := by
  induction s using holdLoop.induct cfg w b with
  | case1 s h1 h2 => rw [holdLoop, if_pos h1, if_pos h2]; rfl
  | case2 s h1 h2 ih => rw [holdLoop, if_pos h1, if_neg h2, ih]; rfl
  | case3 s h1 => rw [holdLoop, if_neg h1]; rfl

theorem holdLoop_longPress_le (cfg : Config) (w : PinSamples) (b : Nat) (s : ButtonState) :
    s.longPress ≤ (holdLoop cfg w b s).longPress := by
  induction s using holdLoop.induct cfg w b with
  | case1 s h1 h2 => rw [holdLoop, if_pos h1, if_pos h2]; simp
  | case2 s h1 h2 ih =>
    rw [holdLoop, if_pos h1, if_neg h2]
    exact Nat.le_trans (Nat.le_succ _) ih
  | case3 s h1 => rw [holdLoop, if_neg h1]; exact Nat.le_refl _

/-- The `button` local after one block: the block's button when both of its
first two reads find it asserted, the previous value otherwise. -/
theorem scanButton_button (cfg : Config) (w : PinSamples) (wl : Bool) (b : Nat)
    (s : ButtonState) :
    (scanButton cfg w wl b s).button =
      if w s.reads b = cfg.BUTTON_PRESSED ∧ w (s.reads + 1) b = cfg.BUTTON_PRESSED then b
      else s.button := by
  unfold scanButton
  by_cases h1 : w s.reads b = cfg.BUTTON_PRESSED
  · by_cases h2 : w (s.reads + 1) b = cfg.BUTTON_PRESSED
    · cases wl <;> simp [isButtonDown, nrf_delay_ms, h1, h2, holdLoop_button]
    · simp [isButtonDown, nrf_delay_ms, h1, h2]
  · simp [isButtonDown, h1]

/-- A block that does not confirm its button leaves `longPress` alone. -/
theorem scanButton_longPress_of_not (cfg : Config) (w : PinSamples) (wl : Bool) (b : Nat)
    (s : ButtonState)
    (h : ¬ (w s.reads b = cfg.BUTTON_PRESSED ∧ w (s.reads + 1) b = cfg.BUTTON_PRESSED)) :
    (scanButton cfg w wl b s).longPress = s.longPress := by
  unfold scanButton
  by_cases h1 : w s.reads b = cfg.BUTTON_PRESSED
  · have h2 : ¬ w (s.reads + 1) b = cfg.BUTTON_PRESSED := fun h2 => h ⟨h1, h2⟩
    simp [isButtonDown, nrf_delay_ms, h1, h2]
  · simp [isButtonDown, h1]

/-- Without `waitForLongPress` no block touches `longPress`. -/
theorem scanButton_longPress_false (cfg : Config) (w : PinSamples) (b : Nat)
    (s : ButtonState) :
    (scanButton cfg w false b s).longPress = s.longPress := by
  unfold scanButton
  by_cases h1 : w s.reads b = cfg.BUTTON_PRESSED
  · by_cases h2 : w (s.reads + 1) b = cfg.BUTTON_PRESSED
    · simp [isButtonDown, nrf_delay_ms, h1, h2]
    · simp [isButtonDown, nrf_delay_ms, h1, h2]
  · simp [isButtonDown, h1]

theorem getButtonScan_eq_blockEntry (cfg : Config) (w : PinSamples) (wl : Bool) :
    getButtonScan cfg w wl = blockEntry cfg w wl 6 := rfl

theorem buttonResult_eq_reading (cfg : Config) (s : ButtonState) :
    buttonResult cfg s = reading cfg s.button (decide (s.longPress > cfg.BUTTON_LONG_PRESS_MS)) := by
  unfold buttonResult reading
  by_cases h : s.longPress > cfg.BUTTON_LONG_PRESS_MS <;> simp [h]


/-- For a fixed pin state the `button` local ends as the last asserted button
of the scan order. -/
theorem getButtonScan_static_button (cfg : Config) (ps : Nat → Nat) (wl : Bool) :
    (getButtonScan cfg (fun _ => ps) wl).button = ((asserted cfg ps).getLast?).getD 0 := by
  unfold getButtonScan
  simp only [scanButton_button, and_self]
  unfold asserted scanOrder
  by_cases h1 : ps cfg.USER_BUTTON_UP = cfg.BUTTON_PRESSED <;>
  by_cases h2 : ps cfg.USER_BUTTON_DOWN = cfg.BUTTON_PRESSED <;>
  by_cases h3 : ps cfg.USER_BUTTON_LEFT = cfg.BUTTON_PRESSED <;>
  by_cases h4 : ps cfg.USER_BUTTON_RIGHT = cfg.BUTTON_PRESSED <;>
  by_cases h5 : ps cfg.USER_BUTTON_A = cfg.BUTTON_PRESSED <;>
  by_cases h6 : ps cfg.USER_BUTTON_B = cfg.BUTTON_PRESSED <;>
  simp [List.filter, h1, h2, h3, h4, h5, h6, List.getLast?]


theorem blockEntry_longPress_false (cfg : Config) (w : PinSamples) (k : Nat) :
    (blockEntry cfg w false k).longPress = 0 := by
  induction k with
  | zero => rfl
  | succ k ih => simp only [blockEntry, scanButton_longPress_false, ih]

/-- On entry to block `k` the `button` local is the button of the last block
before `k` that confirmed its button, or still 0 (with `longPress` still 0)
when none did. -/
theorem blockEntry_button (cfg : Config) (w : PinSamples) (wl : Bool) (k : Nat) :
    (∃ j, j < k ∧ debounced cfg w wl j ∧ (∀ i, j < i → i < k → ¬ debounced cfg w wl i) ∧
        (blockEntry cfg w wl k).button = (scanOrder cfg).getD j 0) ∨
    ((∀ j, j < k → ¬ debounced cfg w wl j) ∧ (blockEntry cfg w wl k).button = 0 ∧
        (blockEntry cfg w wl k).longPress = 0) := by
  induction k with
  | zero => exact Or.inr ⟨fun j hj => absurd hj (Nat.not_lt_zero j), rfl, rfl⟩
  | succ k ih =>
    by_cases hk : debounced cfg w wl k
    · refine Or.inl ⟨k, Nat.lt_succ_self k, hk, fun i h1 h2 => by omega, ?_⟩
      simp only [blockEntry, scanButton_button]
      exact if_pos hk
    · have hb : (blockEntry cfg w wl (k + 1)).button = (blockEntry cfg w wl k).button := by
        simp only [blockEntry, scanButton_button]
        exact if_neg hk
      have hl : (blockEntry cfg w wl (k + 1)).longPress = (blockEntry cfg w wl k).longPress := by
        simp only [blockEntry]
        exact scanButton_longPress_of_not cfg w wl _ _ hk
      rcases ih with ⟨j, hj, hd, hlast, hbtn⟩ | ⟨hnone, hbtn, hlp⟩
      · refine Or.inl ⟨j, Nat.lt_succ_of_lt hj, hd, ?_, hb.trans hbtn⟩
        intro i h1 h2
        by_cases hik : i = k
        · subst hik; exact hk
        · exact hlast i h1 (by omega)
      · refine Or.inr ⟨?_, hb.trans hbtn, hl.trans hlp⟩
        intro j hj
        by_cases hjk : j = k
        · subst hjk; exact hk
        · exact hnone j (by omega)

theorem scanOrder_getD_mem (cfg : Config) (k : Nat) (hk : k < 6) :
    (scanOrder cfg).getD k 0 ∈ scanOrder cfg := by
  interval_cases k <;> simp [scanOrder]

theorem mod_256_land_eq_zero (b m : Nat) (h : b &&& m = 0) : (b % 256) &&& m = 0 := by
  have e : b % 256 = b &&& (2 ^ 8 - 1) := (Nat.and_pow_two_sub_one_eq_mod b 8).symm
  rw [e, Nat.land_assoc, Nat.land_comm (2 ^ 8 - 1) m, ← Nat.land_assoc, h]
  simp

/-! ## The button reader: claims C1 to C4 -/

/-- C1 (as amended): for every `waitForLongPress` and every fixed pin state in
which two or more of the six buttons read asserted, the identifier returned by
`getButton`, with or without the long-press bit, is the asserted button that
comes last in the order UP, DOWN, LEFT, RIGHT, A, B. -/
theorem getButton_simultaneous_last (cfg : Config) (ps : Nat → Nat) (waitForLongPress : Bool)
    (h : 2 ≤ (asserted cfg ps).length) :
    ∃ b long, (asserted cfg ps).getLast? = some b ∧
      getButton cfg (fun _ => ps) waitForLongPress = reading cfg b long := by
  cases hl : (asserted cfg ps).getLast? with
  | none =>
    rw [List.getLast?_eq_none_iff] at hl
    rw [hl] at h
    simp at h
  | some b =>
    refine ⟨b, decide ((getButtonScan cfg (fun _ => ps) waitForLongPress).longPress
      > cfg.BUTTON_LONG_PRESS_MS), rfl, ?_⟩
    unfold getButton
    rw [buttonResult_eq_reading, getButtonScan_static_button, hl]
    rfl

/-- Witness of C1 (as amended) with UP and DOWN both held. -/
theorem getButton_simultaneous_last_witness :
    2 ≤ (asserted sampleConfig upAndDownHeld).length ∧
    ∃ b long, (asserted sampleConfig upAndDownHeld).getLast? = some b ∧
      getButton sampleConfig (fun _ => upAndDownHeld) true = reading sampleConfig b long :=
  ⟨by decide, getButton_simultaneous_last sampleConfig upAndDownHeld true (by decide)⟩

/-- C1 as stated fails: with UP and DOWN both held on every read, the first
asserted button is UP, yet `getButton(false)` returns DOWN. -/
theorem getButton_simultaneous_first_fails :
    ¬ (2 ≤ (asserted sampleConfig upAndDownHeld).length →
      ∃ b long, (asserted sampleConfig upAndDownHeld).head? = some b ∧
        getButton sampleConfig (fun _ => upAndDownHeld) false = reading sampleConfig b long) := by
  intro h
  obtain ⟨b, long, hb, hr⟩ := h (by decide)
  have h1 : (asserted sampleConfig upAndDownHeld).head? = some 1 := by decide
  rw [h1] at hb
  cases hb
  cases long <;> revert hr <;> decide


/-- C2 (the code at the failing input): UP is held for two samples of its hold
loop and released, then DOWN is held for a single sample of its own loop.  With
a threshold of 2 the counter carried over from UP reaches 3 in the loop of DOWN,
and `getButton(true)` returns DOWN with the long-press bit set. -/
theorem getButton_long_press_leak :
    sampleConfig.BUTTON_LONG_PRESS_MS = 2 ∧
    (blockEntry sampleConfig leakSamples true 1).longPress = 2 ∧
    (blockEntry sampleConfig leakSamples true 2).longPress = 3 ∧
    (blockEntry sampleConfig leakSamples true 2).reads
      = (blockEntry sampleConfig leakSamples true 1).reads + 3 ∧
    getButton sampleConfig leakSamples true
      = sampleConfig.USER_BUTTON_DOWN ||| sampleConfig.LONG_PRESS_MASK := by
  have e1 : blockEntry sampleConfig leakSamples true 1
      = { reads := 5, delayMs := 17, longPress := 2, button := 1 } := by
    simp [blockEntry, scanOrder, scanButton, holdLoop, isButtonDown, nrf_delay_ms,
      sampleConfig, leakSamples]
  have e2 : blockEntry sampleConfig leakSamples true 2
      = { reads := 8, delayMs := 33, longPress := 3, button := 2 } := by
    rw [blockEntry, e1]
    simp [scanOrder, scanButton, holdLoop, isButtonDown, nrf_delay_ms,
      sampleConfig, leakSamples]
  have e6 : getButtonScan sampleConfig leakSamples true
      = { reads := 12, delayMs := 33, longPress := 3, button := 2 } := by
    rw [getButtonScan_eq_blockEntry]
    rw [blockEntry, blockEntry, blockEntry, blockEntry, e2]
    simp [scanOrder, scanButton, isButtonDown, sampleConfig, leakSamples]
  refine ⟨rfl, ?_, ?_, ?_, ?_⟩
  · rw [e1]
  · rw [e2]
  · rw [e1, e2]
  · unfold getButton
    rw [e6]
    decide

/-- C3: `getButton(false)` never reports a long press.  When no button
identifier contains the `LONG_PRESS_MASK` bit, the returned value has that bit
clear and is 0 or one of the six identifiers, as a byte (`b % 256` is `b`
itself for an identifier that fits the `uint8_t` return type).  The threshold
is a natural number, so it is not negative. -/
theorem getButton_false_no_long_press (cfg : Config) (w : PinSamples)
    (hmask : ∀ b ∈ scanOrder cfg, b &&& cfg.LONG_PRESS_MASK = 0) :
    getButton cfg w false &&& cfg.LONG_PRESS_MASK = 0 ∧
    (getButton cfg w false = 0 ∨ ∃ b ∈ scanOrder cfg, getButton cfg w false = b % 256) := by
  have hlp : (getButtonScan cfg w false).longPress = 0 := blockEntry_longPress_false cfg w 6
  have hres : getButton cfg w false = (getButtonScan cfg w false).button % 256 := by
    unfold getButton buttonResult
    rw [hlp]
    simp
  rcases blockEntry_button cfg w false 6 with ⟨j, hj, _, _, hbtn⟩ | ⟨_, hbtn, _⟩
  · rw [← getButtonScan_eq_blockEntry] at hbtn
    have hmem := scanOrder_getD_mem cfg j hj
    rw [hres, hbtn]
    exact ⟨mod_256_land_eq_zero _ _ (hmask _ hmem), Or.inr ⟨_, hmem, rfl⟩⟩
  · rw [← getButtonScan_eq_blockEntry] at hbtn
    rw [hres, hbtn]
    simp

/-- Witness of C3 on the sample constants, with UP and DOWN held. -/
theorem getButton_false_no_long_press_witness :
    (∀ b ∈ scanOrder sampleConfig, b &&& sampleConfig.LONG_PRESS_MASK = 0) ∧
    getButton sampleConfig (fun _ => upAndDownHeld) false &&& sampleConfig.LONG_PRESS_MASK = 0 ∧
    (getButton sampleConfig (fun _ => upAndDownHeld) false = 0 ∨
      ∃ b ∈ scanOrder sampleConfig,
        getButton sampleConfig (fun _ => upAndDownHeld) false = b % 256) :=
  ⟨by decide, getButton_false_no_long_press sampleConfig (fun _ => upAndDownHeld) (by decide)⟩

/-- C4: for every pin-sample stream and every `waitForLongPress`, either some
block confirmed its button over the debounce delay, and then the value returned
is the identifier of the last such block, with or without the long-press bit;
or no block did, and then the value returned is exactly 0.  A button read
asserted once and released on the re-read is therefore never the one reported,
and the blocks after it are still scanned. -/
theorem getButton_debounce (cfg : Config) (w : PinSamples) (waitForLongPress : Bool) :
    (∃ k, k < 6 ∧ debounced cfg w waitForLongPress k ∧
        (∀ j, k < j → j < 6 → ¬ debounced cfg w waitForLongPress j) ∧
        ∃ long, getButton cfg w waitForLongPress
          = reading cfg ((scanOrder cfg).getD k 0) long) ∨
    ((∀ k, k < 6 → ¬ debounced cfg w waitForLongPress k) ∧
        getButton cfg w waitForLongPress = 0) := by
  rcases blockEntry_button cfg w waitForLongPress 6 with
    ⟨j, hj, hd, hlast, hbtn⟩ | ⟨hnone, hbtn, hlp⟩
  · refine Or.inl ⟨j, hj, hd, hlast,
      decide ((blockEntry cfg w waitForLongPress 6).longPress > cfg.BUTTON_LONG_PRESS_MS), ?_⟩
    unfold getButton
    rw [buttonResult_eq_reading, getButtonScan_eq_blockEntry, hbtn]
  · refine Or.inr ⟨hnone, ?_⟩
    unfold getButton buttonResult
    rw [getButtonScan_eq_blockEntry, hbtn, hlp]
    simp


/-! ## Facts about the editor -/

theorem runEditor_nil (cfg : Config) (chars : Nat) (s : EditState) :
    runEditor cfg chars s [] = s := rfl

theorem runEditor_cons (cfg : Config) (chars : Nat) (s : EditState) (r : Nat) (rs : List Nat) :
    runEditor cfg chars s (r :: rs) = runEditor cfg chars (editorStep cfg chars s r) rs := rfl

theorem runEditor_append (cfg : Config) (chars : Nat) (s : EditState) (rs ts : List Nat) :
    runEditor cfg chars s (rs ++ ts) = runEditor cfg chars (runEditor cfg chars s rs) ts := by
  unfold runEditor
  exact List.foldl_append _ _ _ _

theorem editorStep_returned (cfg : Config) (chars : Nat) (s : EditState) (r : Nat)
    (h : s.phase = Phase.returned) : editorStep cfg chars s r = s := by
  unfold editorStep
  rw [h]

theorem runEditor_returned (cfg : Config) (chars : Nat) (s : EditState) (rs : List Nat)
    (h : s.phase = Phase.returned) : runEditor cfg chars s rs = s := by
  induction rs with
  | nil => rfl
  | cons r rs ih => rw [runEditor_cons, editorStep_returned cfg chars s r h, ih]

/-- While the released button keeps being read, a release loop keeps the editor
where it is. -/
theorem runEditor_release_held (cfg : Config) (chars : Nat) (s : EditState) (b k : Nat)
    (h : s.phase = Phase.release b) :
    runEditor cfg chars s (List.replicate k b) = s := by
  induction k with
  | zero => rfl
  | succ k ih =>
    rw [List.replicate_succ, runEditor_cons]
    have e : editorStep cfg chars s b = s := by
      unfold editorStep
      rw [h]
      simp
    rw [e, ih]

/-- The identifiers of the six buttons are pairwise different, as the `case`
labels of the `switch` require. -/
theorem scanOrder_nodup_ne (cfg : Config) (h : (scanOrder cfg).Nodup) :
    cfg.USER_BUTTON_UP ≠ cfg.USER_BUTTON_A ∧ cfg.USER_BUTTON_UP ≠ cfg.USER_BUTTON_B ∧
    cfg.USER_BUTTON_DOWN ≠ cfg.USER_BUTTON_A ∧ cfg.USER_BUTTON_DOWN ≠ cfg.USER_BUTTON_B ∧
    cfg.USER_BUTTON_DOWN ≠ cfg.USER_BUTTON_UP ∧
    cfg.USER_BUTTON_RIGHT ≠ cfg.USER_BUTTON_A ∧ cfg.USER_BUTTON_RIGHT ≠ cfg.USER_BUTTON_B ∧
    cfg.USER_BUTTON_RIGHT ≠ cfg.USER_BUTTON_UP ∧ cfg.USER_BUTTON_RIGHT ≠ cfg.USER_BUTTON_DOWN ∧
    cfg.USER_BUTTON_LEFT ≠ cfg.USER_BUTTON_A ∧ cfg.USER_BUTTON_LEFT ≠ cfg.USER_BUTTON_B ∧
    cfg.USER_BUTTON_LEFT ≠ cfg.USER_BUTTON_UP ∧ cfg.USER_BUTTON_LEFT ≠ cfg.USER_BUTTON_DOWN ∧
    cfg.USER_BUTTON_LEFT ≠ cfg.USER_BUTTON_RIGHT := by
  simp only [scanOrder, List.nodup_cons, List.mem_cons, List.mem_singleton, not_or,
    List.not_mem_nil, not_false_eq_true, List.nodup_nil, and_true] at h
  obtain ⟨⟨a1, a2, a3, a4, a5⟩, ⟨b1, b2, b3, b4⟩, ⟨c1, c2, c3⟩, ⟨d1, d2⟩, e1⟩ := h
  exact ⟨a4, a5, b3, b4, Ne.symm a1, d1, d2, Ne.symm a3, Ne.symm b2,
    c2, c3, Ne.symm a2, Ne.symm b1, c1⟩

theorem editorStep_poll_up (cfg : Config) (chars : Nat) (s : EditState)
    (hids : (scanOrder cfg).Nodup) (hp : s.phase = Phase.poll) :
    editorStep cfg chars s cfg.USER_BUTTON_UP
      = nextPass (writeCursor s (charUp cfg (s.string s.curIndex))) := by
  obtain ⟨h1, h2, -⟩ := scanOrder_nodup_ne cfg hids
  unfold editorStep
  rw [hp]
  simp [h1, h2]

theorem editorStep_poll_down (cfg : Config) (chars : Nat) (s : EditState)
    (hids : (scanOrder cfg).Nodup) (hp : s.phase = Phase.poll) :
    editorStep cfg chars s cfg.USER_BUTTON_DOWN
      = nextPass (writeCursor s (charDown cfg (s.string s.curIndex))) := by
  obtain ⟨-, -, h1, h2, h3, -⟩ := scanOrder_nodup_ne cfg hids
  unfold editorStep
  rw [hp]
  simp [h1, h2, h3]

theorem editorStep_poll_right (cfg : Config) (chars : Nat) (s : EditState)
    (hids : (scanOrder cfg).Nodup) (hp : s.phase = Phase.poll) :
    editorStep cfg chars s cfg.USER_BUTTON_RIGHT
      = { s with
          curIndex :=
            if s.string s.curIndex ≠ 32 then
              if (s.curIndex : Int) < (chars : Int) - 1 then s.curIndex + 1 else s.curIndex
            else s.curIndex,
          phase := Phase.release cfg.USER_BUTTON_RIGHT } := by
  obtain ⟨-, -, -, -, -, h1, h2, h3, h4, -⟩ := scanOrder_nodup_ne cfg hids
  unfold editorStep
  rw [hp]
  simp [h1, h2, h3, h4]

theorem editorStep_poll_left (cfg : Config) (chars : Nat) (s : EditState)
    (hids : (scanOrder cfg).Nodup) (hp : s.phase = Phase.poll) :
    editorStep cfg chars s cfg.USER_BUTTON_LEFT
      = { s with
          curIndex := if s.curIndex > 0 then s.curIndex - 1 else s.curIndex,
          phase := Phase.release cfg.USER_BUTTON_LEFT } := by
  obtain ⟨-, -, -, -, -, -, -, -, -, h1, h2, h3, h4, h5⟩ := scanOrder_nodup_ne cfg hids
  unfold editorStep
  rw [hp]
  simp [h1, h2, h3, h4, h5]

/-- In the `switch`, a result equal to `USER_BUTTON_A` or `USER_BUTTON_B` sets
`done` and enters the release loop of that button. -/
theorem editorStep_poll_confirm (cfg : Config) (chars : Nat) (s : EditState) (a : Nat)
    (ha : a = cfg.USER_BUTTON_A ∨ a = cfg.USER_BUTTON_B) (hp : s.phase = Phase.poll) :
    editorStep cfg chars s a = { s with done := true, phase := Phase.release a } := by
  unfold editorStep
  rw [hp]
  rcases ha with h | h
  · subst h; simp
  · subst h
    by_cases e : cfg.USER_BUTTON_B = cfg.USER_BUTTON_A
    · simp [e]
    · simp [e]


theorem toChar_id (cfg : Config) (x : Int) (h0 : 0 ≤ x) (h1 : x ≤ 127) : toChar cfg x = x := by
  unfold toChar
  split <;> omega

/-- Without overflow, UP stores the successor, or `FIRST_ALLOWED_CHAR` from
`LAST_ALLOWED_CHAR`. -/
theorem charUp_eq (cfg : Config) (c : Int) (hF : 0 < cfg.FIRST_ALLOWED_CHAR)
    (hL : cfg.LAST_ALLOWED_CHAR < 127) (hc : allowed cfg c) :
    charUp cfg c = if c < cfg.LAST_ALLOWED_CHAR then c + 1 else cfg.FIRST_ALLOWED_CHAR := by
  obtain ⟨h1, h2⟩ := hc
  unfold charUp
  rw [toChar_id cfg (c + 1) (by omega) (by omega),
    toChar_id cfg cfg.FIRST_ALLOWED_CHAR (by omega) (by omega)]
  by_cases h : c < cfg.LAST_ALLOWED_CHAR
  · rw [if_pos h, if_neg (by omega)]
  · rw [if_neg h, if_pos (by omega)]

/-- Without overflow, DOWN stores the predecessor, or `LAST_ALLOWED_CHAR` from
`FIRST_ALLOWED_CHAR`. -/
theorem charDown_eq (cfg : Config) (c : Int) (hF : 0 < cfg.FIRST_ALLOWED_CHAR)
    (hL : cfg.LAST_ALLOWED_CHAR < 127) (hc : allowed cfg c) :
    charDown cfg c = if cfg.FIRST_ALLOWED_CHAR < c then c - 1 else cfg.LAST_ALLOWED_CHAR := by
  obtain ⟨h1, h2⟩ := hc
  unfold charDown
  rw [toChar_id cfg (c - 1) (by omega) (by omega),
    toChar_id cfg cfg.LAST_ALLOWED_CHAR (by omega) (by omega)]
  by_cases h : cfg.FIRST_ALLOWED_CHAR < c
  · rw [if_pos h, if_neg (by omega)]
  · rw [if_neg h, if_pos (by omega)]

theorem allowed_charUp (cfg : Config) (c : Int) (hF : 0 < cfg.FIRST_ALLOWED_CHAR)
    (hL : cfg.LAST_ALLOWED_CHAR < 127) (hc : allowed cfg c) : allowed cfg (charUp cfg c) := by
  rw [charUp_eq cfg c hF hL hc]
  obtain ⟨h1, h2⟩ := hc
  unfold allowed
  split <;> omega

theorem allowed_charDown (cfg : Config) (c : Int) (hF : 0 < cfg.FIRST_ALLOWED_CHAR)
    (hL : cfg.LAST_ALLOWED_CHAR < 127) (hc : allowed cfg c) : allowed cfg (charDown cfg c) := by
  rw [charDown_eq cfg c hF hL hc]
  obtain ⟨h1, h2⟩ := hc
  unfold allowed
  split <;> omega

theorem writeCursor_writeCursor (s : EditState) (u v : Int) :
    writeCursor (writeCursor s u) v = writeCursor s v := by
  unfold writeCursor
  simp

theorem writeCursor_self (s : EditState) : writeCursor s (s.string s.curIndex) = s := by
  unfold writeCursor
  simp

/-- After a write of a non-zero character by a polling editor the next pass
finds no sentinel under the cursor and polls again. -/
theorem nextPass_writeCursor (s : EditState) (v : Int) (hp : s.phase = Phase.poll)
    (hd : s.done = false) (hv : v ≠ 0) : nextPass (writeCursor s v) = writeCursor s v := by
  cases s with
  | mk cur str done phase =>
    simp only at hp hd
    subst hp hd
    simp [nextPass, writeCursor, blankSentinel, hv]

/-- The editor after `k` UP presses, for `k` up to the size of the allowed
range. -/
theorem runEditor_up_iter (cfg : Config) (chars : Nat) (s : EditState)
    (hids : (scanOrder cfg).Nodup) (hF : 0 < cfg.FIRST_ALLOWED_CHAR)
    (hL : cfg.LAST_ALLOWED_CHAR < 127) (hp : s.phase = Phase.poll) (hd : s.done = false)
    (hc : allowed cfg (s.string s.curIndex)) (k : Nat)
    (hk : (k : Int) ≤ cfg.LAST_ALLOWED_CHAR - cfg.FIRST_ALLOWED_CHAR + 1) :
    runEditor cfg chars s (List.replicate k cfg.USER_BUTTON_UP)
      = writeCursor s
          (if s.string s.curIndex + k ≤ cfg.LAST_ALLOWED_CHAR then s.string s.curIndex + k
           else s.string s.curIndex + k
             - (cfg.LAST_ALLOWED_CHAR - cfg.FIRST_ALLOWED_CHAR + 1)) := by
  induction k with
  | zero =>
    obtain ⟨h1, h2⟩ := hc
    simp only [List.replicate_zero, runEditor_nil, Nat.cast_zero, add_zero]
    rw [if_pos h2, writeCursor_self]
  | succ k ih =>
    have hk' : (k : Int) ≤ cfg.LAST_ALLOWED_CHAR - cfg.FIRST_ALLOWED_CHAR + 1 := by
      push_cast at hk; omega
    obtain ⟨h1, h2⟩ := hc
    rw [List.replicate_succ', runEditor_append, ih hk', runEditor_cons, runEditor_nil]
    generalize hv : (if s.string s.curIndex + k ≤ cfg.LAST_ALLOWED_CHAR
      then s.string s.curIndex + k
      else s.string s.curIndex + k
        - (cfg.LAST_ALLOWED_CHAR - cfg.FIRST_ALLOWED_CHAR + 1)) = v
    have hva : allowed cfg v := by
      rw [← hv]; unfold allowed; push_cast at hk; split <;> omega
    have hcell : (writeCursor s v).string (writeCursor s v).curIndex = v := by
      simp [writeCursor]
    rw [editorStep_poll_up cfg chars (writeCursor s v) hids hp, hcell, writeCursor_writeCursor,
      nextPass_writeCursor s _ hp hd (by have := (allowed_charUp cfg v hF hL hva).1; omega),
      charUp_eq cfg v hF hL hva]
    congr 1
    rw [← hv]
    push_cast at hk ⊢
    split_ifs <;> omega

theorem editorStep_up_allowed (cfg : Config) (chars : Nat) (s : EditState)
    (hids : (scanOrder cfg).Nodup) (hF : 0 < cfg.FIRST_ALLOWED_CHAR)
    (hL : cfg.LAST_ALLOWED_CHAR < 127) (hp : s.phase = Phase.poll) (hd : s.done = false)
    (hc : allowed cfg (s.string s.curIndex)) :
    editorStep cfg chars s cfg.USER_BUTTON_UP
      = writeCursor s (charUp cfg (s.string s.curIndex)) := by
  rw [editorStep_poll_up cfg chars s hids hp]
  exact nextPass_writeCursor s _ hp hd
    (by have := (allowed_charUp cfg _ hF hL hc).1; omega)

theorem editorStep_down_allowed (cfg : Config) (chars : Nat) (s : EditState)
    (hids : (scanOrder cfg).Nodup) (hF : 0 < cfg.FIRST_ALLOWED_CHAR)
    (hL : cfg.LAST_ALLOWED_CHAR < 127) (hp : s.phase = Phase.poll) (hd : s.done = false)
    (hc : allowed cfg (s.string s.curIndex)) :
    editorStep cfg chars s cfg.USER_BUTTON_DOWN
      = writeCursor s (charDown cfg (s.string s.curIndex)) := by
  rw [editorStep_poll_down cfg chars s hids hp]
  exact nextPass_writeCursor s _ hp hd
    (by have := (allowed_charDown cfg _ hF hL hc).1; omega)

theorem writeCursor_cell (s : EditState) (v : Int) :
    (writeCursor s v).string (writeCursor s v).curIndex = v := by
  simp [writeCursor]

theorem charDown_charUp (cfg : Config) (c : Int) (hF : 0 < cfg.FIRST_ALLOWED_CHAR)
    (hL : cfg.LAST_ALLOWED_CHAR < 127) (hc : allowed cfg c) :
    charDown cfg (charUp cfg c) = c := by
  rw [charDown_eq cfg _ hF hL (allowed_charUp cfg c hF hL hc), charUp_eq cfg c hF hL hc]
  obtain ⟨h1, h2⟩ := hc
  split_ifs <;> omega

theorem charUp_charDown (cfg : Config) (c : Int) (hF : 0 < cfg.FIRST_ALLOWED_CHAR)
    (hL : cfg.LAST_ALLOWED_CHAR < 127) (hc : allowed cfg c) :
    charUp cfg (charDown cfg c) = c := by
  rw [charUp_eq cfg _ hF hL (allowed_charDown cfg c hF hL hc), charDown_eq cfg c hF hL hc]
  obtain ⟨h1, h2⟩ := hc
  split_ifs <;> omega

/-- A press of A or of B, held over `k` further results and then released,
takes a polling editor to the end of the session without touching the buffer
or the cursor. -/
theorem runEditor_confirm (cfg : Config) (chars : Nat) (s : EditState) (a k y : Nat)
    (ha : a = cfg.USER_BUTTON_A ∨ a = cfg.USER_BUTTON_B) (hy : y ≠ a)
    (hp : s.phase = Phase.poll) :
    runEditor cfg chars s (a :: List.replicate k a ++ [y])
      = { s with done := true, phase := Phase.returned } := by
  rw [List.cons_append, runEditor_cons, editorStep_poll_confirm cfg chars s a ha hp,
    runEditor_append, runEditor_release_held cfg chars _ a k rfl, runEditor_cons,
    runEditor_nil]
  unfold editorStep
  simp [hy, nextPass]

/-- The final copy after a confirmation: the first `chars` cells of the
caller's storage receive the working buffer, the others keep their contents. -/
theorem getString_after_confirm (cfg : Config) (chars : Nat) (s : EditState) (a k y : Nat)
    (ha : a = cfg.USER_BUTTON_A ∨ a = cfg.USER_BUTTON_B) (hy : y ≠ a)
    (hp : s.phase = Phase.poll) (retString stack : Nat → Int) (pre rest : List Nat)
    (hs : runEditor cfg chars (editorStart retString stack chars) pre = s) :
    getString cfg retString stack chars (pre ++ (a :: List.replicate k a ++ y :: rest))
      = some (fun i => if i < chars then s.string i else retString i) := by
  have e : pre ++ (a :: List.replicate k a ++ y :: rest)
      = pre ++ ((a :: List.replicate k a ++ [y]) ++ rest) := by simp
  unfold getString
  rw [e, runEditor_append, hs, runEditor_append, runEditor_confirm cfg chars s a k y ha hy hp,
    runEditor_returned _ _ _ _ rfl]
  simp

/-- The next pass keeps the buffer invariant and leaves no sentinel under the
cursor of a polling editor. -/
theorem bufferOk_nextPass (cfg : Config) (retString : Nat → Int) (chars : Nat) (s : EditState)
    (hF32 : cfg.FIRST_ALLOWED_CHAR ≤ 32) (h32L : 32 ≤ cfg.LAST_ALLOWED_CHAR)
    (h : bufferOk cfg retString chars s) :
    bufferOk cfg retString chars (nextPass s) ∧
    ((nextPass s).phase = Phase.poll → (nextPass s).string (nextPass s).curIndex ≠ 0) := by
  obtain ⟨hcur, hcells⟩ := h
  unfold nextPass
  by_cases hd : s.done = true
  · rw [if_pos hd]
    exact ⟨⟨hcur, hcells⟩, fun hp => by simp at hp⟩
  · rw [if_neg hd]
    unfold blankSentinel
    by_cases hz : s.string s.curIndex = 0
    · rw [if_pos hz]
      refine ⟨⟨hcur, ?_⟩, fun _ => by simp [writeCursor]⟩
      intro i hi
      by_cases hic : i = s.curIndex
      · left
        simp only [writeCursor, hic, Function.update_same]
        exact ⟨hF32, h32L⟩
      · simp only [writeCursor, Function.update_noteq hic]
        exact hcells i hi
    · rw [if_neg hz]
      exact ⟨⟨hcur, hcells⟩, fun _ => hz⟩

/-- A write of an allowed character under the cursor keeps the buffer
invariant. -/
theorem bufferOk_writeCursor (cfg : Config) (retString : Nat → Int) (chars : Nat)
    (s : EditState) (v : Int) (hv : allowed cfg v) (h : bufferOk cfg retString chars s) :
    bufferOk cfg retString chars (writeCursor s v) := by
  obtain ⟨hcur, hcells⟩ := h
  refine ⟨hcur, ?_⟩
  intro i hi
  by_cases hic : i = s.curIndex
  · left
    simp only [writeCursor, hic, Function.update_same]
    exact hv
  · simp only [writeCursor, Function.update_noteq hic]
    exact hcells i hi

/-- One `getButton(false)` result keeps the buffer invariant, and a polling
editor never has a sentinel under its cursor. -/
theorem bufferOk_editorStep (cfg : Config) (retString : Nat → Int) (chars : Nat)
    (s : EditState) (r : Nat) (hF : 0 < cfg.FIRST_ALLOWED_CHAR)
    (hF32 : cfg.FIRST_ALLOWED_CHAR ≤ 32) (h32L : 32 ≤ cfg.LAST_ALLOWED_CHAR)
    (hL : cfg.LAST_ALLOWED_CHAR < 127) (h : bufferOk cfg retString chars s)
    (hpoll : s.phase = Phase.poll → s.string s.curIndex ≠ 0) :
    bufferOk cfg retString chars (editorStep cfg chars s r) ∧
    ((editorStep cfg chars s r).phase = Phase.poll →
      (editorStep cfg chars s r).string (editorStep cfg chars s r).curIndex ≠ 0) := by
  cases hph : s.phase with
  | returned =>
    rw [editorStep_returned cfg chars s r hph]
    exact ⟨h, hpoll⟩
  | release b =>
    unfold editorStep
    rw [hph]
    by_cases hr : r = b
    · simp only [hr, if_true]
      exact ⟨h, hpoll⟩
    · simp only [hr, if_false]
      exact bufferOk_nextPass cfg retString chars s hF32 h32L h
  | poll =>
    have hc : allowed cfg (s.string s.curIndex) := by
      rcases h.2 s.curIndex h.1 with ha | ⟨hz, _⟩
      · exact ha
      · exact absurd hz (hpoll hph)
    by_cases hA : r = cfg.USER_BUTTON_A
    · rw [editorStep_poll_confirm cfg chars s r (Or.inl hA) hph]
      exact ⟨h, fun hp => by simp at hp⟩
    by_cases hB : r = cfg.USER_BUTTON_B
    · rw [editorStep_poll_confirm cfg chars s r (Or.inr hB) hph]
      exact ⟨h, fun hp => by simp at hp⟩
    unfold editorStep
    rw [hph]
    simp only [hA, hB, if_false]
    by_cases hU : r = cfg.USER_BUTTON_UP
    · simp only [hU, if_true]
      exact bufferOk_nextPass cfg retString chars _ hF32 h32L
        (bufferOk_writeCursor cfg retString chars s _ (allowed_charUp cfg _ hF hL hc) h)
    simp only [hU, if_false]
    by_cases hD : r = cfg.USER_BUTTON_DOWN
    · simp only [hD, if_true]
      exact bufferOk_nextPass cfg retString chars _ hF32 h32L
        (bufferOk_writeCursor cfg retString chars s _ (allowed_charDown cfg _ hF hL hc) h)
    simp only [hD, if_false]
    by_cases hR : r = cfg.USER_BUTTON_RIGHT
    · simp only [hR, if_true]
      refine ⟨⟨?_, h.2⟩, fun hp => by simp at hp⟩
      have := h.1
      show (if s.string s.curIndex ≠ 32 then
          if (s.curIndex : Int) < (chars : Int) - 1 then s.curIndex + 1 else s.curIndex
        else s.curIndex) < chars
      split_ifs <;> omega
    simp only [hR, if_false]
    by_cases hLf : r = cfg.USER_BUTTON_LEFT
    · simp only [hLf, if_true]
      refine ⟨⟨?_, h.2⟩, fun hp => by simp at hp⟩
      have := h.1
      show (if s.curIndex > 0 then s.curIndex - 1 else s.curIndex) < chars
      split_ifs <;> omega
    simp only [hLf, if_false]
    exact ⟨h, hpoll⟩

/-- The buffer invariant holds on entry to the first poll when every one of the
caller's first `chars` characters is allowed or the sentinel 0. -/
theorem bufferOk_editorStart (cfg : Config) (retString stack : Nat → Int) (chars : Nat)
    (hF32 : cfg.FIRST_ALLOWED_CHAR ≤ 32) (h32L : 32 ≤ cfg.LAST_ALLOWED_CHAR)
    (hc1 : 1 ≤ chars)
    (hbuf : ∀ i, i < chars → allowed cfg (retString i) ∨ retString i = 0) :
    bufferOk cfg retString chars (editorStart retString stack chars) ∧
    ((editorStart retString stack chars).phase = Phase.poll →
      (editorStart retString stack chars).string (editorStart retString stack chars).curIndex
        ≠ 0) := by
  unfold editorStart
  apply bufferOk_nextPass cfg retString chars _ hF32 h32L
  refine ⟨hc1, ?_⟩
  intro i hi
  simp only [hi, if_true]
  rcases hbuf i hi with ha | hz
  · exact Or.inl ha
  · exact Or.inr ⟨hz, hz⟩

/-- The buffer invariant holds in every state the editor reaches. -/
theorem bufferOk_runEditor (cfg : Config) (retString : Nat → Int) (chars : Nat)
    (hF : 0 < cfg.FIRST_ALLOWED_CHAR)
    (hF32 : cfg.FIRST_ALLOWED_CHAR ≤ 32) (h32L : 32 ≤ cfg.LAST_ALLOWED_CHAR)
    (hL : cfg.LAST_ALLOWED_CHAR < 127) (readings : List Nat) (s : EditState)
    (h : bufferOk cfg retString chars s)
    (hpoll : s.phase = Phase.poll → s.string s.curIndex ≠ 0) :
    bufferOk cfg retString chars (runEditor cfg chars s readings) ∧
    ((runEditor cfg chars s readings).phase = Phase.poll →
      (runEditor cfg chars s readings).string (runEditor cfg chars s readings).curIndex
        ≠ 0) := by
  induction readings generalizing s with
  | nil => exact ⟨h, hpoll⟩
  | cons r rs ih =>
    rw [runEditor_cons]
    obtain ⟨h1, h2⟩ := bufferOk_editorStep cfg retString chars s r hF hF32 h32L hL h hpoll
    exact ih _ h1 h2

/-! ## The string editor: claims C5 to C10 -/

/-- C5 as stated fails: a buffer of two sentinels comes back, after a press of
A and its release, with the second cell still 0, which is not an allowed
character; and a buffer holding the out-of-range byte 5 comes back with that
byte. -/
theorem getString_range_fails :
    (∃ out, getString sampleConfig (fun _ => 0) (fun _ => 0) 2 [5, 0] = some out ∧
      ¬ allowed sampleConfig (out 1)) ∧
    (∃ out, getString sampleConfig (fun _ => 5) (fun _ => 0) 1 [5, 0] = some out ∧
      ¬ allowed sampleConfig (out 0)) :=
  ⟨⟨_, rfl, by decide⟩, ⟨_, rfl, by decide⟩⟩

/-- C5 (as amended): assume `0 < FIRST_ALLOWED_CHAR ≤ ' ' ≤ LAST_ALLOWED_CHAR < 127`
and a caller's buffer of `chars` characters (`1 ≤ chars ≤ 32`), each allowed or
the sentinel 0.  Then after every finite sequence of `getButton` results every
one of the first `chars` cells of the working buffer is allowed or is a
sentinel 0 that the caller supplied there; the cell under the cursor is allowed
whenever the editor polls; and whenever `getString` returns, every one of the
first `chars` characters handed back is allowed or is such a sentinel. -/
theorem getString_range_invariant (cfg : Config) (retString stack : Nat → Int) (chars : Nat)
    (readings : List Nat) (hF : 0 < cfg.FIRST_ALLOWED_CHAR)
    (hF32 : cfg.FIRST_ALLOWED_CHAR ≤ 32) (h32L : 32 ≤ cfg.LAST_ALLOWED_CHAR)
    (hL : cfg.LAST_ALLOWED_CHAR < 127) (hc1 : 1 ≤ chars) (_hc32 : chars ≤ 32)
    (hbuf : ∀ i, i < chars → allowed cfg (retString i) ∨ retString i = 0) :
    (∀ i, i < chars →
      allowed cfg ((runEditor cfg chars (editorStart retString stack chars) readings).string i) ∨
      ((runEditor cfg chars (editorStart retString stack chars) readings).string i = 0 ∧
        retString i = 0)) ∧
    ((runEditor cfg chars (editorStart retString stack chars) readings).phase = Phase.poll →
      allowed cfg
        ((runEditor cfg chars (editorStart retString stack chars) readings).string
          (runEditor cfg chars (editorStart retString stack chars) readings).curIndex)) ∧
    (∀ out, getString cfg retString stack chars readings = some out →
      ∀ i, i < chars → allowed cfg (out i) ∨ (out i = 0 ∧ retString i = 0)) := by
  obtain ⟨s1, s2⟩ := bufferOk_editorStart cfg retString stack chars hF32 h32L hc1 hbuf
  obtain ⟨⟨hcur, hcells⟩, hpoll⟩ :=
    bufferOk_runEditor cfg retString chars hF hF32 h32L hL readings _ s1 s2
  refine ⟨hcells, ?_, ?_⟩
  · intro hp
    rcases hcells _ hcur with ha | ⟨hz, _⟩
    · exact ha
    · exact absurd hz (hpoll hp)
  · intro out hout i hi
    unfold getString at hout
    simp only at hout
    split at hout
    · injection hout with e
      rw [← e]
      simp only [hi, if_true]
      exact hcells i hi
    · exact absurd hout (by simp)

/-- Witness of C5 (as amended): two sentinels, then A pressed and released. -/
theorem getString_range_invariant_witness :
    (0 < sampleConfig.FIRST_ALLOWED_CHAR ∧ sampleConfig.FIRST_ALLOWED_CHAR ≤ 32 ∧
      32 ≤ sampleConfig.LAST_ALLOWED_CHAR ∧ sampleConfig.LAST_ALLOWED_CHAR < 127 ∧
      1 ≤ 2 ∧ 2 ≤ 32 ∧
      ∀ i, i < 2 → allowed sampleConfig ((fun _ => (0 : Int)) i) ∨ (fun _ => (0 : Int)) i = 0) ∧
    (∀ out, getString sampleConfig (fun _ => 0) (fun _ => 0) 2 [5, 0] = some out →
      ∀ i, i < 2 → allowed sampleConfig (out i) ∨ (out i = 0 ∧ (fun _ => (0 : Int)) i = 0)) :=
  ⟨⟨by decide, by decide, by decide, by decide, by decide, by decide, fun _ _ => Or.inr rfl⟩,
    (getString_range_invariant sampleConfig (fun _ => 0) (fun _ => 0) 2 [5, 0]
      (by decide) (by decide) (by decide) (by decide) (by decide) (by decide)
      (fun _ _ => Or.inr rfl)).2.2⟩

/-- C6: assuming `0 < FIRST_ALLOWED_CHAR ≤ LAST_ALLOWED_CHAR < 127` and an
allowed character `c` under the cursor of a polling editor, one UP press stores
`c + 1`, or `FIRST_ALLOWED_CHAR` when `c = LAST_ALLOWED_CHAR`; one DOWN press
stores `c - 1`, or `LAST_ALLOWED_CHAR` when `c = FIRST_ALLOWED_CHAR`; nothing
else changes.  Over repeated UP presses every allowed value is under the cursor
after exactly one number of presses below the size of the range, and after as
many presses as the range has values the editor is back where it started.  DOWN
undoes UP and UP undoes DOWN. -/
theorem getString_up_down_wrap (cfg : Config) (chars : Nat) (s : EditState) (c : Int)
    (hids : (scanOrder cfg).Nodup) (hF : 0 < cfg.FIRST_ALLOWED_CHAR)
    (_hFL : cfg.FIRST_ALLOWED_CHAR ≤ cfg.LAST_ALLOWED_CHAR)
    (hL : cfg.LAST_ALLOWED_CHAR < 127) (hp : s.phase = Phase.poll) (hd : s.done = false)
    (hcur : s.string s.curIndex = c) (hc : allowed cfg c) :
    editorStep cfg chars s cfg.USER_BUTTON_UP
      = writeCursor s (if c < cfg.LAST_ALLOWED_CHAR then c + 1 else cfg.FIRST_ALLOWED_CHAR) ∧
    editorStep cfg chars s cfg.USER_BUTTON_DOWN
      = writeCursor s (if cfg.FIRST_ALLOWED_CHAR < c then c - 1 else cfg.LAST_ALLOWED_CHAR) ∧
    (∀ v, allowed cfg v →
      ∃! k : Nat, (k : Int) < cfg.LAST_ALLOWED_CHAR - cfg.FIRST_ALLOWED_CHAR + 1 ∧
        (runEditor cfg chars s (List.replicate k cfg.USER_BUTTON_UP)).string s.curIndex = v) ∧
    runEditor cfg chars s
        (List.replicate (cfg.LAST_ALLOWED_CHAR - cfg.FIRST_ALLOWED_CHAR + 1).toNat
          cfg.USER_BUTTON_UP) = s ∧
    runEditor cfg chars s [cfg.USER_BUTTON_UP, cfg.USER_BUTTON_DOWN] = s ∧
    runEditor cfg chars s [cfg.USER_BUTTON_DOWN, cfg.USER_BUTTON_UP] = s := by
  subst hcur
  have hup := editorStep_up_allowed cfg chars s hids hF hL hp hd hc
  have hdown := editorStep_down_allowed cfg chars s hids hF hL hp hd hc
  have hiter := runEditor_up_iter cfg chars s hids hF hL hp hd hc
  obtain ⟨h1, h2⟩ := hc
  have hcell : ∀ k : Nat, (k : Int) ≤ cfg.LAST_ALLOWED_CHAR - cfg.FIRST_ALLOWED_CHAR + 1 →
      (runEditor cfg chars s (List.replicate k cfg.USER_BUTTON_UP)).string s.curIndex
        = (if s.string s.curIndex + k ≤ cfg.LAST_ALLOWED_CHAR then s.string s.curIndex + k
           else s.string s.curIndex + k
             - (cfg.LAST_ALLOWED_CHAR - cfg.FIRST_ALLOWED_CHAR + 1)) := by
    intro k hk
    rw [hiter k hk]
    exact writeCursor_cell s _
  refine ⟨?_, ?_, ?_, ?_, ?_, ?_⟩
  · rw [hup, charUp_eq cfg _ hF hL ⟨h1, h2⟩]
  · rw [hdown, charDown_eq cfg _ hF hL ⟨h1, h2⟩]
  · intro v hv
    obtain ⟨v1, v2⟩ := hv
    refine ⟨(if s.string s.curIndex ≤ v then v - s.string s.curIndex
      else v - s.string s.curIndex
        + (cfg.LAST_ALLOWED_CHAR - cfg.FIRST_ALLOWED_CHAR + 1)).toNat, ⟨?_, ?_⟩, ?_⟩
    · split_ifs <;> omega
    · rw [hcell _ (by split_ifs <;> omega)]
      split_ifs <;> omega
    · rintro k ⟨hk1, hk2⟩
      rw [hcell k (by omega)] at hk2
      split_ifs at hk2 ⊢ <;> omega
  · rw [hiter _ (by omega)]
    have e : (if s.string s.curIndex
          + ((cfg.LAST_ALLOWED_CHAR - cfg.FIRST_ALLOWED_CHAR + 1).toNat : Int)
            ≤ cfg.LAST_ALLOWED_CHAR
        then s.string s.curIndex
          + ((cfg.LAST_ALLOWED_CHAR - cfg.FIRST_ALLOWED_CHAR + 1).toNat : Int)
        else s.string s.curIndex
          + ((cfg.LAST_ALLOWED_CHAR - cfg.FIRST_ALLOWED_CHAR + 1).toNat : Int)
          - (cfg.LAST_ALLOWED_CHAR - cfg.FIRST_ALLOWED_CHAR + 1)) = s.string s.curIndex := by
      split_ifs <;> omega
    rw [e, writeCursor_self]
  · have hu : allowed cfg (charUp cfg (s.string s.curIndex)) :=
      allowed_charUp cfg _ hF hL ⟨h1, h2⟩
    rw [runEditor_cons, runEditor_cons, runEditor_nil, hup,
      editorStep_down_allowed cfg chars (writeCursor s (charUp cfg (s.string s.curIndex)))
        hids hF hL hp hd (by rw [writeCursor_cell]; exact hu),
      writeCursor_cell, writeCursor_writeCursor, charDown_charUp cfg _ hF hL ⟨h1, h2⟩,
      writeCursor_self]
  · have hv : allowed cfg (charDown cfg (s.string s.curIndex)) :=
      allowed_charDown cfg _ hF hL ⟨h1, h2⟩
    rw [runEditor_cons, runEditor_cons, runEditor_nil, hdown,
      editorStep_up_allowed cfg chars (writeCursor s (charDown cfg (s.string s.curIndex)))
        hids hF hL hp hd (by rw [writeCursor_cell]; exact hv),
      writeCursor_cell, writeCursor_writeCursor, charUp_charDown cfg _ hF hL ⟨h1, h2⟩,
      writeCursor_self]

/-- Witness of C6: the character `'A'` under the cursor of `"AAA"`. -/
theorem getString_up_down_wrap_witness :
    ((scanOrder sampleConfig).Nodup ∧ 0 < sampleConfig.FIRST_ALLOWED_CHAR ∧
      sampleConfig.FIRST_ALLOWED_CHAR ≤ sampleConfig.LAST_ALLOWED_CHAR ∧
      sampleConfig.LAST_ALLOWED_CHAR < 127 ∧ sampleEditor.phase = Phase.poll ∧
      sampleEditor.done = false ∧ sampleEditor.string sampleEditor.curIndex = 65 ∧
      allowed sampleConfig 65) ∧
    editorStep sampleConfig 3 sampleEditor sampleConfig.USER_BUTTON_UP
      = writeCursor sampleEditor
          (if (65 : Int) < sampleConfig.LAST_ALLOWED_CHAR then 65 + 1
           else sampleConfig.FIRST_ALLOWED_CHAR) :=
  ⟨⟨by decide, by decide, by decide, by decide, by decide, by decide, by decide, by decide⟩,
    (getString_up_down_wrap sampleConfig 3 sampleEditor 65 (by decide) (by decide) (by decide)
      (by decide) (by decide) (by decide) (by decide) (by decide)).1⟩

/-- C7: for every length `L` with `1 ≤ L ≤ 32` and a buffer seeded with `L`
blanks, pressing UP once at cursor 0 and then confirming with A or B yields
`FIRST_ALLOWED_CHAR + 1` at position 0 and leaves positions `1 .. L - 1` blank.
The range is taken to start at the blank and to reach beyond it, as the
property presupposes. -/
theorem getString_blank_up (cfg : Config) (L : Nat) (retString stack : Nat → Int) (a y : Nat)
    (hids : (scanOrder cfg).Nodup) (hfirst : cfg.FIRST_ALLOWED_CHAR = 32)
    (hlast : 32 < cfg.LAST_ALLOWED_CHAR) (hL1 : 1 ≤ L) (_hL32 : L ≤ 32)
    (hblank : ∀ i, i < L → retString i = 32)
    (ha : a = cfg.USER_BUTTON_A ∨ a = cfg.USER_BUTTON_B) (hy : y ≠ a) :
    ∃ out, getString cfg retString stack L [cfg.USER_BUTTON_UP, a, y] = some out ∧
      out 0 = cfg.FIRST_ALLOWED_CHAR + 1 ∧
      ∀ i, 1 ≤ i → i < L → out i = retString i := by
  have h0 : retString 0 = 32 := hblank 0 (by omega)
  have hstart : editorStart retString stack L
      = { curIndex := 0, string := fun i => if i < L then retString i else stack i,
          done := false, phase := Phase.poll } := by
    have hL0 : 0 < L := by omega
    simp [editorStart, nextPass, blankSentinel, hL0, h0]
  have hup : charUp cfg 32 = 33 := by
    have e : toChar cfg (32 + 1) = 33 := by
      unfold toChar; split <;> rfl
    unfold charUp
    rw [e, if_neg (by omega)]
  have hs : runEditor cfg L (editorStart retString stack L) [cfg.USER_BUTTON_UP]
      = writeCursor (editorStart retString stack L) 33 := by
    have hcell : (editorStart retString stack L).string (editorStart retString stack L).curIndex
        = 32 := by
      rw [hstart]
      have hL0 : 0 < L := by omega
      simp [hL0, h0]
    rw [runEditor_cons, runEditor_nil,
      editorStep_poll_up cfg L _ hids (by rw [hstart]), hcell, hup]
    exact nextPass_writeCursor _ 33 (by rw [hstart]) (by rw [hstart]) (by decide)
  have hg := getString_after_confirm cfg L _ a 0 y ha hy
    (show (writeCursor (editorStart retString stack L) 33).phase = Phase.poll by rw [hstart]; rfl)
    retString stack [cfg.USER_BUTTON_UP] [] hs
  refine ⟨_, hg, ?_, ?_⟩
  · have hL0 : 0 < L := by omega
    simp only [hL0, if_true]
    rw [hstart, hfirst]
    simp [writeCursor]
  · intro i hi1 hiL
    simp only [hiL, if_true]
    rw [hstart]
    have hne : i ≠ 0 := by omega
    simp [writeCursor, Function.update_noteq hne, hiL]

/-- Witness of C7: three blanks, UP, then A pressed and released. -/
theorem getString_blank_up_witness :
    ((scanOrder sampleConfig).Nodup ∧ sampleConfig.FIRST_ALLOWED_CHAR = 32 ∧
      32 < sampleConfig.LAST_ALLOWED_CHAR ∧ 1 ≤ 3 ∧ 3 ≤ 32 ∧
      (∀ i, i < 3 → (fun _ => (32 : Int)) i = 32) ∧
      (sampleConfig.USER_BUTTON_A = sampleConfig.USER_BUTTON_A ∨
        sampleConfig.USER_BUTTON_A = sampleConfig.USER_BUTTON_B) ∧
      0 ≠ sampleConfig.USER_BUTTON_A) ∧
    ∃ out, getString sampleConfig (fun _ => 32) (fun _ => 0) 3
        [sampleConfig.USER_BUTTON_UP, sampleConfig.USER_BUTTON_A, 0] = some out ∧
      out 0 = sampleConfig.FIRST_ALLOWED_CHAR + 1 ∧
      ∀ i, 1 ≤ i → i < 3 → out i = (fun _ => (32 : Int)) i :=
  ⟨⟨by decide, by decide, by decide, by decide, by decide, fun _ _ => rfl, Or.inl rfl,
      by decide⟩,
    getString_blank_up sampleConfig 3 (fun _ => 32) (fun _ => 0) sampleConfig.USER_BUTTON_A 0
      (by decide) (by decide) (by decide) (by decide) (by decide) (fun _ _ => rfl)
      (Or.inl rfl) (by decide)⟩

/-- C8: for every length `chars ≥ 1`, cursor position below `chars` and buffer
contents, a RIGHT press moves the cursor to `min (p + 1) (chars - 1)` when the
character under it is not the blank `' '` and leaves it where it is otherwise;
the press does not change the buffer, and the editor goes on to wait for the
release of RIGHT. -/
theorem getString_right (cfg : Config) (chars : Nat) (s : EditState)
    (hids : (scanOrder cfg).Nodup) (hp : s.phase = Phase.poll)
    (hL : 1 ≤ chars) (hcur : s.curIndex < chars) :
    (editorStep cfg chars s cfg.USER_BUTTON_RIGHT).curIndex
      = (if s.string s.curIndex ≠ 32 then min (s.curIndex + 1) (chars - 1) else s.curIndex) ∧
    (editorStep cfg chars s cfg.USER_BUTTON_RIGHT).string = s.string ∧
    (editorStep cfg chars s cfg.USER_BUTTON_RIGHT).done = s.done ∧
    (editorStep cfg chars s cfg.USER_BUTTON_RIGHT).phase
      = Phase.release cfg.USER_BUTTON_RIGHT := by
  rw [editorStep_poll_right cfg chars s hids hp]
  refine ⟨?_, rfl, rfl, rfl⟩
  show (if s.string s.curIndex ≠ 32 then
      if (s.curIndex : Int) < (chars : Int) - 1 then s.curIndex + 1 else s.curIndex
    else s.curIndex) = _
  by_cases hb : s.string s.curIndex = 32
  · simp [hb]
  · simp only [ne_eq, hb, not_false_eq_true, if_true]
    by_cases hlt : (s.curIndex : Int) < (chars : Int) - 1
    · rw [if_pos hlt]; omega
    · rw [if_neg hlt]; omega

/-- Witness of C8: RIGHT on the first cell of `"AAA"`. -/
theorem getString_right_witness :
    (scanOrder sampleConfig).Nodup ∧ sampleEditor.phase = Phase.poll ∧ 1 ≤ 3 ∧
    sampleEditor.curIndex < 3 ∧
    (editorStep sampleConfig 3 sampleEditor sampleConfig.USER_BUTTON_RIGHT).curIndex
      = (if sampleEditor.string sampleEditor.curIndex ≠ 32
          then min (sampleEditor.curIndex + 1) (3 - 1) else sampleEditor.curIndex) :=
  ⟨by decide, by decide, by decide, by decide,
    (getString_right sampleConfig 3 sampleEditor (by decide) (by decide) (by decide)
      (by decide)).1⟩

/-- C9: for every cursor position `p`, a LEFT press leaves the cursor at 0 when
`p = 0` and moves it to exactly `p - 1` when `p > 0`; the press does not change
the buffer, and the editor goes on to wait for the release of LEFT. -/
theorem getString_left (cfg : Config) (chars : Nat) (s : EditState)
    (hids : (scanOrder cfg).Nodup) (hp : s.phase = Phase.poll) :
    (s.curIndex = 0 → (editorStep cfg chars s cfg.USER_BUTTON_LEFT).curIndex = 0) ∧
    (0 < s.curIndex →
      (editorStep cfg chars s cfg.USER_BUTTON_LEFT).curIndex = s.curIndex - 1) ∧
    (editorStep cfg chars s cfg.USER_BUTTON_LEFT).string = s.string ∧
    (editorStep cfg chars s cfg.USER_BUTTON_LEFT).done = s.done ∧
    (editorStep cfg chars s cfg.USER_BUTTON_LEFT).phase
      = Phase.release cfg.USER_BUTTON_LEFT := by
  rw [editorStep_poll_left cfg chars s hids hp]
  refine ⟨?_, ?_, rfl, rfl, rfl⟩
  · intro h0
    show (if s.curIndex > 0 then s.curIndex - 1 else s.curIndex) = 0
    rw [h0]; rfl
  · intro hpos
    show (if s.curIndex > 0 then s.curIndex - 1 else s.curIndex) = s.curIndex - 1
    rw [if_pos hpos]

/-- Witness of C9: LEFT on the first cell of `"AAA"`. -/
theorem getString_left_witness :
    (scanOrder sampleConfig).Nodup ∧ sampleEditor.phase = Phase.poll ∧
    (sampleEditor.curIndex = 0 →
      (editorStep sampleConfig 3 sampleEditor sampleConfig.USER_BUTTON_LEFT).curIndex = 0) :=
  ⟨by decide, by decide,
    (getString_left sampleConfig 3 sampleEditor (by decide) (by decide)).1⟩

/-- C10: from every editor state that is polling, a press of A or of B (read
any number of times while held, then released) ends the session with the
working buffer and the cursor as they were; and when that state is the one
reached by the earlier results `pre`, `getString` returns with the first
`chars` cells of the caller's storage equal to the working buffer and every
cell from `chars` on as the caller left it. -/
theorem getString_confirm (cfg : Config) (chars : Nat) (s : EditState) (a k y : Nat)
    (ha : a = cfg.USER_BUTTON_A ∨ a = cfg.USER_BUTTON_B) (hy : y ≠ a)
    (hp : s.phase = Phase.poll) :
    runEditor cfg chars s (a :: List.replicate k a ++ [y])
      = { s with done := true, phase := Phase.returned } ∧
    ∀ (retString stack : Nat → Int) (pre rest : List Nat),
      runEditor cfg chars (editorStart retString stack chars) pre = s →
      getString cfg retString stack chars (pre ++ (a :: List.replicate k a ++ y :: rest))
        = some (fun i => if i < chars then s.string i else retString i) :=
  ⟨runEditor_confirm cfg chars s a k y ha hy hp,
    fun retString stack pre rest hs =>
      getString_after_confirm cfg chars s a k y ha hy hp retString stack pre rest hs⟩

/-- Witness of C10: A read twice and released, on `"AAA"`. -/
theorem getString_confirm_witness :
    (sampleConfig.USER_BUTTON_A = sampleConfig.USER_BUTTON_A ∨
      sampleConfig.USER_BUTTON_A = sampleConfig.USER_BUTTON_B) ∧
    0 ≠ sampleConfig.USER_BUTTON_A ∧ sampleEditor.phase = Phase.poll ∧
    runEditor sampleConfig 3 sampleEditor
        (sampleConfig.USER_BUTTON_A :: List.replicate 1 sampleConfig.USER_BUTTON_A ++ [0])
      = { sampleEditor with done := true, phase := Phase.returned } :=
  ⟨Or.inl rfl, by decide, by decide,
    (getString_confirm sampleConfig 3 sampleEditor sampleConfig.USER_BUTTON_A 1 0
      (Or.inl rfl) (by decide) (by decide)).1⟩


/-! ## Facts about the CRC -/

theorem testBit_32768 (j : Nat) : (32768 : Nat).testBit j = decide (j = 15) := by
  have e : (32768 : Nat) = 2 ^ 15 := by norm_num
  rw [e, Nat.testBit_two_pow]
  simp [eq_comm]

theorem testBit_128 (j : Nat) : (128 : Nat).testBit j = decide (j = 7) := by
  have e : (128 : Nat) = 2 ^ 7 := by norm_num
  rw [e, Nat.testBit_two_pow]
  simp [eq_comm]

theorem ne_zero_iff_testBit (x : Nat) : x ≠ 0 ↔ ∃ i, x.testBit i = true := by
  constructor
  · exact Nat.ne_zero_implies_bit_true
  · rintro ⟨i, hi⟩ h0
    rw [h0] at hi
    simp at hi

theorem crc16_cond_iff (crc nb : Nat) :
    (((crc &&& 0x8000) >>> 8) ^^^ (nb &&& 0x80) ≠ 0) ↔ (crc.testBit 15 ^^ nb.testBit 7) = true := by
  rw [ne_zero_iff_testBit]
  constructor
  · rintro ⟨i, hi⟩
    simp only [Nat.testBit_xor, Nat.testBit_shiftRight, Nat.testBit_and, testBit_32768,
      testBit_128] at hi
    by_cases h7 : i = 7
    · subst h7
      simpa using hi
    · have h15 : ¬ (8 + i = 15) := by omega
      simp [h7, h15] at hi
  · intro h
    refine ⟨7, ?_⟩
    simp only [Nat.testBit_xor, Nat.testBit_shiftRight, Nat.testBit_and, testBit_32768,
      testBit_128]
    simpa using h

theorem and_32768_ne_zero_iff (t : Nat) : (t &&& 0x8000 ≠ 0) ↔ t.testBit 15 = true := by
  rw [ne_zero_iff_testBit]
  constructor
  · rintro ⟨i, hi⟩
    simp only [Nat.testBit_and, testBit_32768] at hi
    by_cases h : i = 15
    · subst h; simpa using hi
    · simp [h] at hi
  · intro h
    exact ⟨15, by simp [Nat.testBit_and, testBit_32768, h]⟩

theorem crc16Pass_shift (P crc nb : Nat) :
    (crc16Pass P (crc, nb)).1 ^^^ ((crc16Pass P (crc, nb)).2 <<< 8)
      = crcShiftT P (crc ^^^ (nb <<< 8)) := by
  have hcond : (((crc &&& 0x8000) >>> 8) ^^^ (nb &&& 0x80) ≠ 0) ↔
      ((crc ^^^ (nb <<< 8)) &&& 0x8000 ≠ 0) := by
    rw [crc16_cond_iff, and_32768_ne_zero_iff]
    simp [Nat.testBit_xor, Nat.testBit_shiftLeft]
  unfold crc16Pass crcShiftT
  simp only
  have e16 : (65536 : Nat) = 2 ^ 16 := by norm_num
  have e8 : (256 : Nat) = 2 ^ 8 := by norm_num
  by_cases hc : (crc ^^^ (nb <<< 8)) &&& 0x8000 ≠ 0
  · rw [if_pos (hcond.mpr hc), if_pos hc]
    apply Nat.eq_of_testBit_eq
    intro j
    simp only [e16, e8, Nat.testBit_xor, Nat.testBit_mod_two_pow, Nat.testBit_shiftLeft]
    have e : j - 8 - 1 = j - 1 - 8 := by omega
    rw [e]
    rcases Nat.lt_or_ge j 16 with h16 | h16
    · rcases Nat.lt_or_ge j 9 with h9 | h9
      · have f6 : ¬ (j - 1 ≥ 8) := by omega
        have f5 : ¬ (j ≥ 8 ∧ j - 8 ≥ 1) := by omega
        by_cases f3 : j ≥ 8
        · have f5b : ¬ (j - 8 ≥ 1) := fun h => f5 ⟨f3, h⟩
          simp [h16, f6, f3, f5b]
        · simp [h16, f6, f3]
      · have f1 : j ≥ 1 := by omega
        have f3 : j ≥ 8 := by omega
        have f4 : j - 8 < 8 := by omega
        have f5 : j - 8 ≥ 1 := by omega
        have f6 : j - 1 ≥ 8 := by omega
        simp only [h16, f1, f3, f4, f5, f6, decide_True, Bool.true_and]
        cases crc.testBit (j - 1) <;> cases P.testBit j <;> cases nb.testBit (j - 1 - 8) <;> rfl
    · have f1 : ¬ j < 16 := by omega
      have f4 : ¬ j - 8 < 8 := by omega
      simp [f1, f4]
  · rw [if_neg (fun h => hc (hcond.mp h)), if_neg hc]
    apply Nat.eq_of_testBit_eq
    intro j
    simp only [e16, e8, Nat.testBit_xor, Nat.testBit_mod_two_pow, Nat.testBit_shiftLeft]
    have e : j - 8 - 1 = j - 1 - 8 := by omega
    rw [e]
    rcases Nat.lt_or_ge j 16 with h16 | h16
    · rcases Nat.lt_or_ge j 9 with h9 | h9
      · have f6 : ¬ (j - 1 ≥ 8) := by omega
        have f5 : ¬ (j ≥ 8 ∧ j - 8 ≥ 1) := by omega
        by_cases f3 : j ≥ 8
        · have f5b : ¬ (j - 8 ≥ 1) := fun h => f5 ⟨f3, h⟩
          simp [h16, f6, f3, f5b]
        · simp [h16, f6, f3]
      · have f1 : j ≥ 1 := by omega
        have f3 : j ≥ 8 := by omega
        have f4 : j - 8 < 8 := by omega
        have f5 : j - 8 ≥ 1 := by omega
        have f6 : j - 1 ≥ 8 := by omega
        simp only [h16, f1, f3, f4, f5, f6, decide_True, Bool.true_and]
    · have f1 : ¬ j < 16 := by omega
      have f4 : ¬ j - 8 < 8 := by omega
      simp [f1, f4]


theorem crc16Pass_iterate_shift (P : Nat) (k : Nat) (st : Nat × Nat) :
    ((crc16Pass P)^[k] st).1 ^^^ (((crc16Pass P)^[k] st).2 <<< 8)
      = (crcShiftT P)^[k] (st.1 ^^^ (st.2 <<< 8)) := by
  induction k with
  | zero => rfl
  | succ k ih =>
    rw [Function.iterate_succ_apply', Function.iterate_succ_apply', ← ih]
    exact crc16Pass_shift P _ _

theorem crc16Pass_iterate_snd (P : Nat) (k : Nat) (st : Nat × Nat) (hk : k ≤ 8) :
    ((crc16Pass P)^[k] st).2 % 256 = (st.2 * 2 ^ k) % 256 := by
  induction k with
  | zero => simp
  | succ k ih =>
    have ih' := ih (by omega)
    rw [Function.iterate_succ_apply']
    generalize (crc16Pass P)^[k] st = u at ih' ⊢
    show ((u.2 <<< 1) % 256) % 256 = (st.2 * 2 ^ (k + 1)) % 256
    have e1 : u.2 <<< 1 = u.2 * 2 := by rw [Nat.shiftLeft_eq, pow_one]
    have e2 : st.2 * 2 ^ (k + 1) = st.2 * 2 ^ k * 2 := by ring
    rw [e1, e2]
    generalize st.2 * 2 ^ k = a at ih' ⊢
    omega

theorem crc16Pass_iterate_snd_lt (P : Nat) (k : Nat) (st : Nat × Nat) (hk : 1 ≤ k) :
    ((crc16Pass P)^[k] st).2 < 256 := by
  obtain ⟨k, rfl⟩ : ∃ m, k = m + 1 := ⟨k - 1, by omega⟩
  rw [Function.iterate_succ_apply']
  exact Nat.mod_lt _ (by norm_num)

/-- The loop of `crc16` in closed form: the byte is XOR-ed into the high byte
and the shift step runs eight times. -/
theorem crc16_eq_shiftT (P crc nb : Nat) :
    crc16 P crc nb = (crcShiftT P)^[8] (crc ^^^ (nb <<< 8)) := by
  have h1 := crc16Pass_iterate_shift P 8 (crc, nb)
  have h2 := crc16Pass_iterate_snd P 8 (crc, nb) (by omega)
  have h3 := crc16Pass_iterate_snd_lt P 8 (crc, nb) (by omega)
  have h0 : ((crc16Pass P)^[8] (crc, nb)).2 = 0 := by
    simp only at h2
    omega
  rw [h0] at h1
  simpa [crc16] using h1


theorem crcShiftT_eq_crcShift (P s : Nat) (hP : P < 65536) : crcShiftT P s = crcShift P s := by
  unfold crcShiftT crcShift
  by_cases hc : s &&& 0x8000 ≠ 0
  · rw [if_pos hc, if_pos hc]
    apply Nat.eq_of_testBit_eq
    intro j
    have e16 : (65536 : Nat) = 2 ^ 16 := by norm_num
    simp only [e16, Nat.testBit_xor, Nat.testBit_mod_two_pow]
    rcases Nat.lt_or_ge j 16 with h | h
    · simp [h]
    · have hPj : P.testBit j = false :=
        Nat.testBit_lt_two_pow (Nat.lt_of_lt_of_le (e16 ▸ hP) (Nat.pow_le_pow_right (by norm_num) h))
      have hn : ¬ j < 16 := by omega
      simp [hn, hPj]
  · rw [if_neg hc, if_neg hc]

theorem crcShiftT_lt (P s : Nat) : crcShiftT P s < 65536 := by
  unfold crcShiftT
  split <;> exact Nat.mod_lt _ (by norm_num)

theorem crcShiftT_testBit_zero (P s : Nat) (hodd : P % 2 = 1) :
    (crcShiftT P s).testBit 0 = s.testBit 15 := by
  have e16 : (65536 : Nat) = 2 ^ 16 := by norm_num
  unfold crcShiftT
  by_cases hc : s &&& 0x8000 ≠ 0
  · rw [if_pos hc, (and_32768_ne_zero_iff s).mp hc, e16, Nat.testBit_mod_two_pow,
      Nat.testBit_xor, Nat.testBit_shiftLeft]
    simp [hodd]
  · rw [if_neg hc, e16, Nat.testBit_mod_two_pow, Nat.testBit_shiftLeft]
    have : s.testBit 15 = false := by
      cases h : s.testBit 15
      · rfl
      · exact absurd ((and_32768_ne_zero_iff s).mpr h) hc
    simp [this]

theorem crcShiftT_testBit_succ (P s j : Nat) (hj : j < 15) :
    (crcShiftT P s).testBit (j + 1) = (s.testBit j ^^ (s.testBit 15 && P.testBit (j + 1))) := by
  have e16 : (65536 : Nat) = 2 ^ 16 := by norm_num
  have hj16 : j + 1 < 16 := by omega
  unfold crcShiftT
  by_cases hc : s &&& 0x8000 ≠ 0
  · rw [if_pos hc, (and_32768_ne_zero_iff s).mp hc, e16, Nat.testBit_mod_two_pow,
      Nat.testBit_xor, Nat.testBit_shiftLeft]
    simp [hj16]
  · rw [if_neg hc, e16, Nat.testBit_mod_two_pow, Nat.testBit_shiftLeft]
    have : s.testBit 15 = false := by
      cases h : s.testBit 15
      · rfl
      · exact absurd ((and_32768_ne_zero_iff s).mpr h) hc
    simp [this, hj16]

/-- With an odd polynomial the shift step loses nothing: it is one-to-one on
16-bit values. -/
theorem crcShiftT_injective (P s1 s2 : Nat) (hodd : P % 2 = 1) (h1 : s1 < 65536)
    (h2 : s2 < 65536) (h : crcShiftT P s1 = crcShiftT P s2) : s1 = s2 := by
  have e16 : (65536 : Nat) = 2 ^ 16 := by norm_num
  have htop : s1.testBit 15 = s2.testBit 15 := by
    rw [← crcShiftT_testBit_zero P s1 hodd, ← crcShiftT_testBit_zero P s2 hodd, h]
  apply Nat.eq_of_testBit_eq
  intro j
  rcases Nat.lt_or_ge j 15 with hj | hj
  · have a1 := crcShiftT_testBit_succ P s1 j hj
    have a2 := crcShiftT_testBit_succ P s2 j hj
    rw [h, a2, htop] at a1
    cases hb : s2.testBit 15 && P.testBit (j + 1) <;> rw [hb] at a1 <;> simpa using a1.symm
  · rcases Nat.eq_or_lt_of_le hj with hj | hj
    · rw [← hj]; exact htop
    · have p : (2 : Nat) ^ 16 ≤ 2 ^ j := Nat.pow_le_pow_right (by norm_num) hj
      rw [Nat.testBit_lt_two_pow (Nat.lt_of_lt_of_le (e16 ▸ h1) p),
        Nat.testBit_lt_two_pow (Nat.lt_of_lt_of_le (e16 ▸ h2) p)]

theorem crcShiftT_iterate_lt (P s k : Nat) (hs : s < 65536) : (crcShiftT P)^[k] s < 65536 := by
  cases k with
  | zero => exact hs
  | succ k => rw [Function.iterate_succ_apply']; exact crcShiftT_lt P _

theorem crcShiftT_iterate_injective (P : Nat) (hodd : P % 2 = 1) (k s1 s2 : Nat)
    (h1 : s1 < 65536) (h2 : s2 < 65536)
    (h : (crcShiftT P)^[k] s1 = (crcShiftT P)^[k] s2) : s1 = s2 := by
  induction k with
  | zero => exact h
  | succ k ih =>
    rw [Function.iterate_succ_apply', Function.iterate_succ_apply'] at h
    exact ih (crcShiftT_injective P _ _ hodd (crcShiftT_iterate_lt P s1 k h1)
      (crcShiftT_iterate_lt P s2 k h2) h)

theorem xor_shift8_lt (s b : Nat) (hs : s < 65536) (hb : b < 256) : s ^^^ (b <<< 8) < 65536 := by
  have e16 : (65536 : Nat) = 2 ^ 16 := by norm_num
  rw [e16] at hs ⊢
  apply Nat.xor_lt_two_pow hs
  rw [Nat.shiftLeft_eq]
  omega

theorem crc16_lt (P crc nb : Nat) : crc16 P crc nb < 65536 := by
  rw [crc16_eq_shiftT, Function.iterate_succ_apply']
  exact crcShiftT_lt P _

/-- For an odd polynomial `crc16` is one-to-one in the pair of a 16-bit value
and a byte taken separately: different values with the same byte, or
different bytes with the same value, give different results. -/
theorem crc16_injective_left (P : Nat) (hodd : P % 2 = 1) (s1 s2 b : Nat) (h1 : s1 < 65536)
    (h2 : s2 < 65536) (hb : b < 256) (h : crc16 P s1 b = crc16 P s2 b) : s1 = s2 := by
  rw [crc16_eq_shiftT, crc16_eq_shiftT] at h
  have := crcShiftT_iterate_injective P hodd 8 _ _ (xor_shift8_lt s1 b h1 hb)
    (xor_shift8_lt s2 b h2 hb) h
  exact Nat.xor_left_injective this

theorem crc16_injective_right (P : Nat) (hodd : P % 2 = 1) (s a b : Nat) (hs : s < 65536)
    (ha : a < 256) (hb : b < 256) (h : crc16 P s a = crc16 P s b) : a = b := by
  rw [crc16_eq_shiftT, crc16_eq_shiftT] at h
  have h' := crcShiftT_iterate_injective P hodd 8 _ _ (xor_shift8_lt s a hs ha)
    (xor_shift8_lt s b hs hb) h
  have h'' : a <<< 8 = b <<< 8 := Nat.xor_right_injective.eq_iff.mp h'
  rw [Nat.shiftLeft_eq, Nat.shiftLeft_eq] at h''
  omega


theorem calcCRCLoop_step (P : Nat) (data : Nat → Nat) (len aux crc : Nat) (h : aux < len) :
    calcCRCLoop P data len aux crc
      = calcCRCLoop P data len (aux + 1) (crc16 P crc (data aux)) := by
  rw [calcCRCLoop, if_pos h]

theorem calcCRCLoop_done (P : Nat) (data : Nat → Nat) (len aux crc : Nat) (h : ¬ aux < len) :
    calcCRCLoop P data len aux crc = crc := by
  rw [calcCRCLoop, if_neg h]

/-- The loop of `calcCRC` is the left fold of `crc16` over the bytes it has
still to read. -/
theorem calcCRCLoop_eq_foldl (P : Nat) (data : Nat → Nat) (len : Nat) (n aux crc : Nat)
    (hn : len - aux = n) :
    calcCRCLoop P data len aux crc
      = ((List.range' aux n).map data).foldl (crc16 P) crc := by
  induction n generalizing aux crc with
  | zero => rw [calcCRCLoop_done P data len aux crc (by omega)]; rfl
  | succ n ih =>
    rw [calcCRCLoop_step P data len aux crc (by omega), ih (aux + 1) _ (by omega)]
    rfl

theorem calcCRCLoop_congr (P : Nat) (d1 d2 : Nat → Nat) (len : Nat) (n aux crc : Nat)
    (hn : len - aux = n) (h : ∀ j, aux ≤ j → j < len → d1 j = d2 j) :
    calcCRCLoop P d1 len aux crc = calcCRCLoop P d2 len aux crc := by
  induction n generalizing aux crc with
  | zero =>
    rw [calcCRCLoop_done P d1 len aux crc (by omega), calcCRCLoop_done P d2 len aux crc (by omega)]
  | succ n ih =>
    rw [calcCRCLoop_step P d1 len aux crc (by omega), calcCRCLoop_step P d2 len aux crc (by omega),
      h aux (Nat.le_refl _) (by omega)]
    exact ih (aux + 1) _ (by omega) (fun j h1 h2 => h j (by omega) h2)

theorem calcCRCLoop_injective (P : Nat) (hodd : P % 2 = 1) (d : Nat → Nat) (len : Nat)
    (hd : ∀ j, j < len → d j < 256) (n aux c1 c2 : Nat) (hn : len - aux = n)
    (h1 : c1 < 65536) (h2 : c2 < 65536)
    (h : calcCRCLoop P d len aux c1 = calcCRCLoop P d len aux c2) : c1 = c2 := by
  induction n generalizing aux c1 c2 with
  | zero =>
    rwa [calcCRCLoop_done P d len aux c1 (by omega), calcCRCLoop_done P d len aux c2 (by omega)]
      at h
  | succ n ih =>
    rw [calcCRCLoop_step P d len aux c1 (by omega), calcCRCLoop_step P d len aux c2 (by omega)]
      at h
    have := ih (aux + 1) _ _ (by omega) (crc16_lt P _ _) (crc16_lt P _ _) h
    exact crc16_injective_left P hodd c1 c2 (d aux) h1 h2 (hd aux (by omega)) this

theorem calcCRCLoop_change (P : Nat) (hodd : P % 2 = 1) (d : Nat → Nat) (len i b : Nat)
    (hd : ∀ j, j < len → d j < 256) (hi : i < len) (hb : b < 256) (hne : b ≠ d i)
    (n aux crc : Nat) (hn : i - aux = n) (haux : aux ≤ i) (hc : crc < 65536) :
    calcCRCLoop P (Function.update d i b) len aux crc ≠ calcCRCLoop P d len aux crc := by
  induction n generalizing aux crc with
  | zero =>
    have e : aux = i := by omega
    subst e
    rw [calcCRCLoop_step P _ len aux crc hi, calcCRCLoop_step P d len aux crc hi,
      Function.update_same,
      calcCRCLoop_congr P (Function.update d aux b) d len _ (aux + 1) _ rfl
        (fun j h1 _ => Function.update_noteq (by omega) _ _)]
    intro h
    have := calcCRCLoop_injective P hodd d len hd _ (aux + 1) _ _ rfl (crc16_lt P _ _)
      (crc16_lt P _ _) h
    exact hne (crc16_injective_right P hodd crc b (d aux) hc hb (hd aux hi) this)
  | succ n ih =>
    have hlt : aux < len := by omega
    have hne' : aux ≠ i := by omega
    rw [calcCRCLoop_step P _ len aux crc hlt, calcCRCLoop_step P d len aux crc hlt,
      Function.update_noteq hne']
    exact ih (aux + 1) _ (by omega) (by omega) (crc16_lt P _ _)


/-! ## The CRC: claims C11 and C15 -/

/-- C11: for an odd `POLYNOM`, every sequence `d` of `len` bytes
(`1 ≤ len ≤ 255`), every index `i < len` and every byte `b` different from
`d i`, the CRC of `d` with `d i` replaced by `b` differs from the CRC of `d`;
and `calcCRC` depends on nothing but the `len` bytes it reads. -/
theorem calcCRC_single_byte_change (POLYNOM : Nat) (d : Nat → Nat) (len i b : Nat)
    (hodd : POLYNOM % 2 = 1) (_hlen1 : 1 ≤ len) (_hlen : len ≤ 255)
    (hd : ∀ j, j < len → d j < 256) (hi : i < len) (hb : b < 256) (hne : b ≠ d i) :
    calcCRC POLYNOM (Function.update d i b) len ≠ calcCRC POLYNOM d len ∧
    ∀ e : Nat → Nat, (∀ j, j < len → e j = d j) → calcCRC POLYNOM e len = calcCRC POLYNOM d len :=
  ⟨calcCRCLoop_change POLYNOM hodd d len i b hd hi hb hne i 0 0 rfl (Nat.zero_le i)
      (by norm_num),
    fun e he => calcCRCLoop_congr POLYNOM e d len len 0 0 rfl (fun j _ hj => he j hj)⟩

/-- Witness of C11: the polynomial `0x1021`, two zero bytes, the second one
replaced by 1. -/
theorem calcCRC_single_byte_change_witness :
    (0x1021 % 2 = 1 ∧ 1 ≤ 2 ∧ 2 ≤ 255 ∧ (∀ j, j < 2 → (fun _ => (0 : Nat)) j < 256) ∧
      1 < 2 ∧ 1 < 256 ∧ 1 ≠ (fun _ => (0 : Nat)) 1) ∧
    calcCRC 0x1021 (Function.update (fun _ => (0 : Nat)) 1 1) 2
      ≠ calcCRC 0x1021 (fun _ => (0 : Nat)) 2 :=
  ⟨⟨by decide, by decide, by decide, fun _ _ => Nat.zero_lt_succ 255, by decide, by decide,
      by decide⟩,
    (calcCRC_single_byte_change 0x1021 (fun _ => 0) 2 1 1 (by decide) (by decide) (by decide)
      (fun _ _ => Nat.zero_lt_succ 255) (by decide) (by decide) (by decide)).1⟩

/-- C15: for a 16-bit `POLYNOM`, every 16-bit `crcValue` and every byte
`newByte`, `crc16` equals the textbook definition (the byte XOR-ed into the
high byte, then eight shift steps); and `calcCRC` is the left fold of `crc16`
over the first `len` bytes from the seed 0, so the CRC of an empty range is
0. -/
theorem crc16_eq_textbook (POLYNOM crcValue newByte : Nat) (hP : POLYNOM < 65536)
    (_hc : crcValue < 65536) (_hb : newByte < 256) :
    crc16 POLYNOM crcValue newByte = crc16Textbook POLYNOM crcValue newByte ∧
    (∀ (data : Nat → Nat) (len : Nat),
      calcCRC POLYNOM data len = ((List.range len).map data).foldl (crc16 POLYNOM) 0) ∧
    ∀ data : Nat → Nat, calcCRC POLYNOM data 0 = 0 := by
  refine ⟨?_, ?_, ?_⟩
  · have e : crcShiftT POLYNOM = crcShift POLYNOM :=
      funext (fun s => crcShiftT_eq_crcShift POLYNOM s hP)
    rw [crc16_eq_shiftT, e]
    rfl
  · intro data len
    rw [List.range_eq_range']
    exact calcCRCLoop_eq_foldl POLYNOM data len len 0 0 rfl
  · intro data
    exact calcCRCLoop_done POLYNOM data 0 0 0 (by omega)

/-- Witness of C15: the polynomial `0x1021`, the value 0 and the byte `0x31`. -/
theorem crc16_eq_textbook_witness :
    (0x1021 < 65536 ∧ 0 < 65536 ∧ 0x31 < 256) ∧
    crc16 0x1021 0 0x31 = crc16Textbook 0x1021 0 0x31 :=
  ⟨⟨by decide, by decide, by decide⟩,
    (crc16_eq_textbook 0x1021 0 0x31 (by decide) (by decide) (by decide)).1⟩


/-! ## The LED encoders: claim C12 -/

/-- C12: for every level `N` with `0 ≤ N ≤ 4`, `setLevelLEDs` and
`setPowerUpLEDs` each write their four indicator lines, once each and in
ordinal order, and leave lit exactly the `N` lines `0 .. N - 1`; hence the lit
set for `N` is a strict subset of the lit set for `N + 1`. -/
theorem setLEDs_thermometer (pins : LedPins) (N : Nat) (hN : N ≤ 4) :
    ((setLevelLEDs pins (levelOf N)).map GpioWrite.pin
        = [pins.LED_LEVEL_UP_0, pins.LED_LEVEL_UP_1, pins.LED_LEVEL_UP_2, pins.LED_LEVEL_UP_3] ∧
      litLines (setLevelLEDs pins (levelOf N)) = List.range N ∧
      (litLines (setLevelLEDs pins (levelOf N))).length = N) ∧
    ((setPowerUpLEDs pins (powerUpOf N)).map GpioWrite.pin
        = [pins.LED_POWER_UP_0, pins.LED_POWER_UP_1, pins.LED_POWER_UP_2, pins.LED_POWER_UP_3] ∧
      litLines (setPowerUpLEDs pins (powerUpOf N)) = List.range N ∧
      (litLines (setPowerUpLEDs pins (powerUpOf N))).length = N) ∧
    (N < 4 →
      (litLines (setLevelLEDs pins (levelOf N))
          ⊆ litLines (setLevelLEDs pins (levelOf (N + 1))) ∧
        ¬ litLines (setLevelLEDs pins (levelOf (N + 1)))
          ⊆ litLines (setLevelLEDs pins (levelOf N))) ∧
      (litLines (setPowerUpLEDs pins (powerUpOf N))
          ⊆ litLines (setPowerUpLEDs pins (powerUpOf (N + 1))) ∧
        ¬ litLines (setPowerUpLEDs pins (powerUpOf (N + 1)))
          ⊆ litLines (setPowerUpLEDs pins (powerUpOf N)))) := by
  have hl : ∀ n, n ≤ 4 → litLines (setLevelLEDs pins (levelOf n)) = List.range n := by
    intro n hn
    interval_cases n <;> rfl
  have hp : ∀ n, n ≤ 4 → litLines (setPowerUpLEDs pins (powerUpOf n)) = List.range n := by
    intro n hn
    interval_cases n <;> rfl
  refine ⟨⟨?_, hl N hN, ?_⟩, ⟨?_, hp N hN, ?_⟩, ?_⟩
  · interval_cases N <;> rfl
  · rw [hl N hN, List.length_range]
  · interval_cases N <;> rfl
  · rw [hp N hN, List.length_range]
  · intro h4
    rw [hl N hN, hl (N + 1) (by omega), hp N hN, hp (N + 1) (by omega)]
    have hsub : List.range N ⊆ List.range (N + 1) := by
      intro k hk
      rw [List.mem_range] at hk ⊢
      omega
    have hnot : ¬ List.range (N + 1) ⊆ List.range N := by
      intro h
      have := h (List.mem_range.mpr (Nat.lt_succ_self N))
      rw [List.mem_range] at this
      omega
    exact ⟨⟨hsub, hnot⟩, ⟨hsub, hnot⟩⟩

/-- Witness of C12: level 2 on the sample pins. -/
theorem setLEDs_thermometer_witness :
    2 ≤ 4 ∧ litLines (setLevelLEDs samplePins (levelOf 2)) = List.range 2 ∧
    (litLines (setLevelLEDs samplePins (levelOf 2))).length = 2 :=
  ⟨by decide, (setLEDs_thermometer samplePins 2 (by decide)).1.2⟩

/-! ## Facts about the file lister -/

theorem scanned_zero (c : FsConsts) (dir : DirStream) (i : Nat) : scanned c dir i 0 = [] := rfl

theorem scanned_succ (c : FsConsts) (dir : DirStream) (i n : Nat) :
    scanned c dir i (n + 1)
      = if isEntry c (dir i) then dir i :: scanned c dir (i + 1) n else [] := by
  unfold scanned
  rw [List.range'_succ, List.map_cons, List.takeWhile_cons]

theorem scanned_length_le (c : FsConsts) (dir : DirStream) (i n : Nat) :
    (scanned c dir i n).length ≤ n := by
  induction n generalizing i with
  | zero => simp [scanned_zero]
  | succ n ih =>
    rw [scanned_succ]
    split
    · have := ih (i + 1)
      simp only [List.length_cons]
      omega
    · simp

/-- The loop of `getFiles` with `n` passes to go: it ends, `counter` grows by
the number of `RAW` files among the entries it scans, and it makes one read for
each of them plus one for the read that stops it early. -/
theorem getFilesLoop_spec (c : FsConsts) (dir : DirStream) (n : Nat) (s : FilesState)
    (hdot : ∀ r ∈ scanned c dir s.reads n, r.fno.fattrib &&& c.AM_DIR = 0 →
      (strrchr r.fno.fname '.').isSome = true) :
    ∃ t, getFilesLoop c dir n s = some t ∧
      t.counter = s.counter + ((scanned c dir s.reads n).filter (isRawFile c)).length ∧
      t.reads = s.reads + min n ((scanned c dir s.reads n).length + 1) ∧
      (t.reads < s.reads + n → isEntry c (dir (t.reads - 1)) = false) := by
  induction n generalizing s with
  | zero => exact ⟨s, rfl, by simp [scanned_zero], by simp, fun h => absurd h (by omega)⟩
  | succ n ih =>
    rw [scanned_succ] at hdot ⊢
    unfold getFilesLoop
    simp only
    by_cases hstop : (dir s.reads).ff_result ≠ c.FR_OK ∨ (dir s.reads).fno.fname = []
    · have he : isEntry c (dir s.reads) = false := by
        unfold isEntry
        rcases hstop with h | h
        · simp [h]
        · simp [h]
      rw [if_pos hstop, he]
      refine ⟨_, rfl, by simp, by simp, fun _ => ?_⟩
      simpa using he
    · have he : isEntry c (dir s.reads) = true := by
        unfold isEntry
        rw [not_or, not_not] at hstop
        simp [hstop.1, hstop.2]
      rw [if_neg hstop, he]
      rw [he] at hdot
      simp only [if_true] at hdot ⊢
      have hrest : ∀ u : FilesState, u.reads = s.reads + 1 →
          ∀ r ∈ scanned c dir u.reads n, r.fno.fattrib &&& c.AM_DIR = 0 →
            (strrchr r.fno.fname '.').isSome = true := by
        intro u hu r hr
        rw [hu] at hr
        exact hdot r (List.mem_cons_of_mem _ hr)
      by_cases hdir : (dir s.reads).fno.fattrib &&& c.AM_DIR ≠ 0
      · have hraw : isRawFile c (dir s.reads) = false := by
          unfold isRawFile
          simp [hdir]
        rw [if_pos hdir]
        obtain ⟨t, ht, hc, hr, hl⟩ := ih { s with reads := s.reads + 1 } (hrest _ rfl)
        refine ⟨t, ht, ?_, ?_, ?_⟩
        · rw [hc, List.filter_cons, hraw]
          simp
        · rw [hr]
          simp only [List.length_cons]
          omega
        · intro h
          exact hl (by simp only at h ⊢; omega)
      · rw [if_neg hdir]
        rw [not_not] at hdir
        have hsome := hdot (dir s.reads) (List.mem_cons_self _ _) hdir
        cases hk : strrchr (dir s.reads).fno.fname '.' with
        | none => rw [hk] at hsome; simp at hsome
        | some k =>
          simp only
          by_cases hext : List.drop (k + 1) (dir s.reads).fno.fname = ['R', 'A', 'W']
          · have hraw : isRawFile c (dir s.reads) = true := by
              unfold isRawFile
              simp [hdir, hk, hext]
            rw [if_pos hext]
            obtain ⟨t, ht, hc, hr, hl⟩ :=
              ih (copyName { s with reads := s.reads + 1 } (dir s.reads).fno.fname k)
                (hrest _ rfl)
            refine ⟨t, ht, ?_, ?_, ?_⟩
            · rw [hc, List.filter_cons, hraw]
              simp only [copyName, if_true, List.length_cons]
              omega
            · rw [hr]
              simp only [copyName, List.length_cons]
              omega
            · intro h
              exact hl (by simp only [copyName] at h ⊢; omega)
          · have hraw : isRawFile c (dir s.reads) = false := by
              unfold isRawFile
              simp [hk, hext]
            rw [if_neg hext]
            obtain ⟨t, ht, hc, hr, hl⟩ := ih { s with reads := s.reads + 1 } (hrest _ rfl)
            refine ⟨t, ht, ?_, ?_, ?_⟩
            · rw [hc, List.filter_cons, hraw]
              simp
            · rw [hr]
              simp only [List.length_cons]
              omega
            · intro h
              exact hl (by simp only at h ⊢; omega)

/-! ## The file lister: claims C13 and C14 -/

/-- C13: whenever `f_opendir` returns a non-zero result, `getFiles` returns 0,
leaves the array `files` as it was and makes no call of `f_readdir`, for every
directory and every `fileMax`. -/
theorem getFiles_open_failure (c : FsConsts) (openResult : Nat) (dir : DirStream)
    (files : Nat → Char) (fileMax : Nat) (h : openResult ≠ 0) :
    ∃ r, getFiles c openResult dir files fileMax = some r ∧ r.ret = 0 ∧ r.files = files ∧
      r.reads = 0 ∧ r.printed = true :=
  ⟨_, if_pos h, rfl, rfl, rfl, rfl⟩

/-- Witness of C13: `f_opendir` fails with result 4 on the sample directory. -/
theorem getFiles_open_failure_witness :
    4 ≠ 0 ∧
    ∃ r, getFiles fatFs 4 (dirOfEntries 0 sampleDir) (fun _ => ' ') 5 = some r ∧ r.ret = 0 ∧
      r.files = (fun _ => ' ') ∧ r.reads = 0 ∧ r.printed = true :=
  ⟨by decide, getFiles_open_failure fatFs 4 (dirOfEntries 0 sampleDir) (fun _ => ' ') 5
    (by decide)⟩


/-- C14 as stated fails: the sample directory holds the file `A.RAW` after the
file `NOTES.TXT`, every name has a `'.'`, and with `fileMax = 1` the claim
gives 1; `getFiles` returns 0, because the one pass of its loop is used up by
`NOTES.TXT`. -/
theorem getFiles_cap_fails :
    sampleDir.all (fun f => (strrchr f.fname '.').isSome) = true ∧
    min 1 ((sampleDir.map (DirRead.mk 0)).filter (isRawFile fatFs)).length = 1 ∧
    ∃ r, getFiles fatFs 0 (dirOfEntries 0 sampleDir) (fun _ => ' ') 1 = some r ∧ r.ret = 0 :=
  ⟨by decide, by decide, _, rfl, rfl⟩

/-- C14 (as amended): when the directory opens and every file among the entries
scanned has a `'.'` in its name, `getFiles` returns, for every directory and
every `fileMax`, the number of files whose name ends in the extension `RAW`
among the entries handed back by its first `fileMax` reads, up to the first
read error or end of directory; this is at most `fileMax`, and it is the number
of names written.  Subdirectories and other extensions are skipped, and each
uses up one of the `fileMax` passes.  The loop stops before `fileMax` reads
only at a read that fails or reports the end of the directory. -/
theorem getFiles_listing (c : FsConsts) (dir : DirStream) (files : Nat → Char) (fileMax : Nat)
    (hdot : ∀ r ∈ scanned c dir 0 fileMax, r.fno.fattrib &&& c.AM_DIR = 0 →
      (strrchr r.fno.fname '.').isSome = true) :
    ∃ r, getFiles c 0 dir files fileMax = some r ∧
      r.ret = ((scanned c dir 0 fileMax).filter (isRawFile c)).length ∧
      r.ret ≤ fileMax ∧
      r.reads = min fileMax ((scanned c dir 0 fileMax).length + 1) ∧
      (r.reads < fileMax → isEntry c (dir (r.reads - 1)) = false) ∧
      r.closed = true := by
  obtain ⟨t, ht, hc, hr, hl⟩ :=
    getFilesLoop_spec c dir fileMax { files := files, counter := 0, reads := 0 } hdot
  refine ⟨{ ret := t.counter, files := t.files, reads := t.reads, printed := false,
            closed := true }, ?_, ?_, ?_, ?_, ?_, rfl⟩
  · unfold getFiles
    rw [if_neg (by simp), ht]
  · simpa using hc
  · have h1 := List.length_filter_le (isRawFile c) (scanned c dir 0 fileMax)
    have h2 := scanned_length_le c dir 0 fileMax
    simp only [Nat.zero_add] at hc
    show t.counter ≤ fileMax
    omega
  · simpa using hr
  · intro h
    exact hl (by simpa using h)

/-- Witness of C14 (as amended): the sample directory with `fileMax = 5`. -/
theorem getFiles_listing_witness :
    (∀ r ∈ scanned fatFs (dirOfEntries 0 sampleDir) 0 5, r.fno.fattrib &&& fatFs.AM_DIR = 0 →
      (strrchr r.fno.fname '.').isSome = true) ∧
    ∃ r, getFiles fatFs 0 (dirOfEntries 0 sampleDir) (fun _ => ' ') 5 = some r ∧
      r.ret = ((scanned fatFs (dirOfEntries 0 sampleDir) 0 5).filter (isRawFile fatFs)).length ∧
      r.ret ≤ 5 ∧
      r.reads = min 5 ((scanned fatFs (dirOfEntries 0 sampleDir) 0 5).length + 1) ∧
      (r.reads < 5 → isEntry fatFs (dirOfEntries 0 sampleDir (r.reads - 1)) = false) ∧
      r.closed = true :=
  ⟨by decide, getFiles_listing fatFs (dirOfEntries 0 sampleDir) (fun _ => ' ') 5 (by decide)⟩


/-! ## Time and read bounds of `getButton` -/

/-- The hold loop adds to `longPress` what it adds to the delay total; it
raises `longPress` by at most one or to at most one above the threshold, and
it makes at most one read more than it counts. -/
theorem holdLoop_bounds (cfg : Config) (w : PinSamples) (b : Nat) (s : ButtonState) :
    s.longPress ≤ (holdLoop cfg w b s).longPress ∧
    ((holdLoop cfg w b s).longPress ≤ s.longPress + 1 ∨
      (holdLoop cfg w b s).longPress ≤ cfg.BUTTON_LONG_PRESS_MS + 1) ∧
    (holdLoop cfg w b s).delayMs + s.longPress = s.delayMs + (holdLoop cfg w b s).longPress ∧
    (holdLoop cfg w b s).reads + s.longPress
      ≤ s.reads + (holdLoop cfg w b s).longPress + 1 := by
  induction s using holdLoop.induct cfg w b with
  | case1 s h1 h2 =>
    rw [holdLoop, if_pos h1, if_pos h2]
    simp only [nrf_delay_ms, isButtonDown]
    refine ⟨?_, Or.inl ?_, ?_, ?_⟩ <;> omega
  | case2 s h1 h2 ih =>
    rw [holdLoop, if_pos h1, if_neg h2]
    simp only [nrf_delay_ms, isButtonDown] at ih ⊢
    obtain ⟨i1, i2, i3, i4⟩ := ih
    refine ⟨by omega, Or.inr ?_, by omega, by omega⟩
    rcases i2 with i2 | i2 <;> omega
  | case3 s h1 =>
    rw [holdLoop, if_neg h1]
    simp only [isButtonDown]
    exact ⟨Nat.le_refl _, Or.inl (Nat.le_succ _), trivial, by omega⟩

/-- One block of `getButton`: the same bounds, with the debounce delay and the
two reads of the block added. -/
theorem scanButton_bounds (cfg : Config) (w : PinSamples) (wl : Bool) (b : Nat)
    (s : ButtonState) :
    s.longPress ≤ (scanButton cfg w wl b s).longPress ∧
    ((scanButton cfg w wl b s).longPress ≤ s.longPress + 1 ∨
      (scanButton cfg w wl b s).longPress ≤ cfg.BUTTON_LONG_PRESS_MS + 1) ∧
    (scanButton cfg w wl b s).delayMs + s.longPress
      ≤ s.delayMs + cfg.BUTTON_DEBOUNCE_MS + (scanButton cfg w wl b s).longPress ∧
    (scanButton cfg w wl b s).reads + s.longPress
      ≤ s.reads + (scanButton cfg w wl b s).longPress + 3 := by
  unfold scanButton
  by_cases h1 : w s.reads b = cfg.BUTTON_PRESSED
  · by_cases h2 : w (s.reads + 1) b = cfg.BUTTON_PRESSED
    · cases wl
      · simp [isButtonDown, nrf_delay_ms, h1, h2]; omega
      · simp only [isButtonDown, nrf_delay_ms, h1, h2, decide_True, if_true]
        have h := holdLoop_bounds cfg w b
          { reads := s.reads + 1 + 1, delayMs := s.delayMs + cfg.BUTTON_DEBOUNCE_MS,
            longPress := s.longPress, button := b }
        simp only at h
        obtain ⟨i1, i2, i3, i4⟩ := h
        refine ⟨i1, i2, by omega, by omega⟩
    · simp [isButtonDown, nrf_delay_ms, h1, h2]; omega
  · simp [isButtonDown, h1]; omega

/-- On entry to block `k` the counter is at most `k` above the threshold, the
delay total is at most `k` debounce delays plus the counter, and at most three
reads per block plus the counter have been made. -/
theorem blockEntry_bounds (cfg : Config) (w : PinSamples) (wl : Bool) (k : Nat) :
    (blockEntry cfg w wl k).longPress ≤ cfg.BUTTON_LONG_PRESS_MS + k ∧
    (blockEntry cfg w wl k).delayMs
      ≤ k * cfg.BUTTON_DEBOUNCE_MS + (blockEntry cfg w wl k).longPress ∧
    (blockEntry cfg w wl k).reads ≤ 3 * k + (blockEntry cfg w wl k).longPress := by
  induction k with
  | zero => simp [blockEntry]
  | succ k ih =>
    have h := scanButton_bounds cfg w wl ((scanOrder cfg).getD k 0) (blockEntry cfg w wl k)
    simp only [blockEntry]
    have e : (k + 1) * cfg.BUTTON_DEBOUNCE_MS
        = k * cfg.BUTTON_DEBOUNCE_MS + cfg.BUTTON_DEBOUNCE_MS := by ring
    rw [e]
    generalize k * cfg.BUTTON_DEBOUNCE_MS = kd at ih ⊢
    obtain ⟨i1, i2, i3, i4⟩ := h
    obtain ⟨j1, j2, j3⟩ := ih
    refine ⟨?_, by omega, by omega⟩
    rcases i2 with i2 | i2 <;> omega

/-- While the button stays asserted the hold loop runs until the counter is
above the threshold, and one pass at least. -/
theorem holdLoop_held (cfg : Config) (w : PinSamples) (b : Nat) (s : ButtonState)
    (hw : ∀ n, w n b = cfg.BUTTON_PRESSED) :
    (holdLoop cfg w b s).longPress
        = (if s.longPress + 1 ≤ cfg.BUTTON_LONG_PRESS_MS + 1 then cfg.BUTTON_LONG_PRESS_MS + 1
           else s.longPress + 1) ∧
    (holdLoop cfg w b s).delayMs + s.longPress = s.delayMs + (holdLoop cfg w b s).longPress ∧
    (holdLoop cfg w b s).reads + s.longPress = s.reads + (holdLoop cfg w b s).longPress := by
  induction s using holdLoop.induct cfg w b with
  | case1 s h1 h2 =>
    rw [holdLoop, if_pos h1, if_pos h2]
    simp only [nrf_delay_ms, isButtonDown]
    split_ifs <;> omega
  | case2 s h1 h2 ih =>
    rw [holdLoop, if_pos h1, if_neg h2]
    simp only [nrf_delay_ms, isButtonDown] at ih ⊢
    split_ifs at ih ⊢ <;> omega
  | case3 s h1 =>
    exact absurd (by simp [isButtonDown, hw]) h1


/-- A block whose button stays asserted, with `waitForLongPress` set: two
reads, the debounce delay, and the hold loop run until the counter is above
the threshold. -/
theorem scanButton_held (cfg : Config) (w : PinSamples) (b : Nat) (s : ButtonState)
    (hw : ∀ n, w n b = cfg.BUTTON_PRESSED) :
    (scanButton cfg w true b s).longPress
        = (if s.longPress + 1 ≤ cfg.BUTTON_LONG_PRESS_MS + 1 then cfg.BUTTON_LONG_PRESS_MS + 1
           else s.longPress + 1) ∧
    (scanButton cfg w true b s).delayMs + s.longPress
      = s.delayMs + cfg.BUTTON_DEBOUNCE_MS + (scanButton cfg w true b s).longPress ∧
    (scanButton cfg w true b s).reads + s.longPress
      = s.reads + 2 + (scanButton cfg w true b s).longPress := by
  unfold scanButton
  simp only [isButtonDown, nrf_delay_ms, hw, decide_True, if_true]
  have h := holdLoop_held cfg w b
    { reads := s.reads + 1 + 1, delayMs := s.delayMs + cfg.BUTTON_DEBOUNCE_MS,
      longPress := s.longPress, button := b } hw
  simp only at h
  obtain ⟨i1, i2, i3⟩ := h
  exact ⟨i1, i2, by omega⟩

/-- With all six buttons held throughout and `waitForLongPress` set, after `k`
blocks the counter is `k` above the threshold. -/
theorem blockEntry_held (cfg : Config) (w : PinSamples)
    (hw : ∀ b ∈ scanOrder cfg, ∀ n, w n b = cfg.BUTTON_PRESSED) (k : Nat) (hk : k < 6) :
    (blockEntry cfg w true (k + 1)).longPress = cfg.BUTTON_LONG_PRESS_MS + (k + 1) ∧
    (blockEntry cfg w true (k + 1)).delayMs
      = (k + 1) * cfg.BUTTON_DEBOUNCE_MS + cfg.BUTTON_LONG_PRESS_MS + (k + 1) ∧
    (blockEntry cfg w true (k + 1)).reads = 3 * (k + 1) + cfg.BUTTON_LONG_PRESS_MS := by
  induction k with
  | zero =>
    have h := scanButton_held cfg w ((scanOrder cfg).getD 0 0)
      { reads := 0, delayMs := 0, longPress := 0, button := 0 }
      (hw _ (scanOrder_getD_mem cfg 0 (by omega)))
    simp only [blockEntry]
    simp only at h
    obtain ⟨i1, i2, i3⟩ := h
    rw [if_pos (by omega)] at i1
    refine ⟨by omega, by omega, by omega⟩
  | succ k ih =>
    obtain ⟨j1, j2, j3⟩ := ih (by omega)
    have h := scanButton_held cfg w ((scanOrder cfg).getD (k + 1) 0)
      (blockEntry cfg w true (k + 1)) (hw _ (scanOrder_getD_mem cfg (k + 1) hk))
    obtain ⟨i1, i2, i3⟩ := h
    rw [if_neg (by omega)] at i1
    have e1 : blockEntry cfg w true (k + 1 + 1)
        = scanButton cfg w true ((scanOrder cfg).getD (k + 1) 0)
            (blockEntry cfg w true (k + 1)) := rfl
    rw [e1]
    have e2 : (k + 1 + 1) * cfg.BUTTON_DEBOUNCE_MS
        = (k + 1) * cfg.BUTTON_DEBOUNCE_MS + cfg.BUTTON_DEBOUNCE_MS := by ring
    rw [e2]
    generalize (k + 1) * cfg.BUTTON_DEBOUNCE_MS = kd at j2 ⊢
    refine ⟨by omega, by omega, by omega⟩

/-! ## The button reader: claims C16 and C18 -/

/-- C16 as stated fails: with UP alone held, `getButton(true)` delays for the
debounce window and then for three samples of the hold loop, 18 ms with the
sample constants, one more than `BUTTON_DEBOUNCE_MS + BUTTON_LONG_PRESS_MS`. -/
theorem getButton_delay_exceeds :
    (getButtonScan sampleConfig (fun _ => upHeld) true).delayMs = 18 ∧
    ¬ ((getButtonScan sampleConfig (fun _ => upHeld) true).delayMs
        ≤ sampleConfig.BUTTON_DEBOUNCE_MS + sampleConfig.BUTTON_LONG_PRESS_MS) := by
  have e : (getButtonScan sampleConfig (fun _ => upHeld) true).delayMs = 18 := by
    simp [getButtonScan, scanButton, holdLoop, isButtonDown, nrf_delay_ms, sampleConfig, upHeld]
  rw [e]
  exact ⟨rfl, by decide⟩

/-- C16 (as amended): for every `waitForLongPress` and every pin-sample stream,
the total of the arguments passed to `nrf_delay_ms` during one `getButton` call
is at most `6 * BUTTON_DEBOUNCE_MS + BUTTON_LONG_PRESS_MS + 6`: six debounce
windows and one millisecond for each count of the hold counter.  Without
`waitForLongPress` it is at most `6 * BUTTON_DEBOUNCE_MS`.  The bound is reached
when all six buttons are held throughout. -/
theorem getButton_delay_bound (cfg : Config) (w : PinSamples) (waitForLongPress : Bool) :
    (getButtonScan cfg w waitForLongPress).delayMs
      ≤ 6 * cfg.BUTTON_DEBOUNCE_MS + cfg.BUTTON_LONG_PRESS_MS + 6 ∧
    (getButtonScan cfg w false).delayMs ≤ 6 * cfg.BUTTON_DEBOUNCE_MS ∧
    ((∀ b ∈ scanOrder cfg, ∀ n, w n b = cfg.BUTTON_PRESSED) →
      (getButtonScan cfg w true).delayMs
        = 6 * cfg.BUTTON_DEBOUNCE_MS + cfg.BUTTON_LONG_PRESS_MS + 6) := by
  refine ⟨?_, ?_, ?_⟩
  · obtain ⟨h1, h2, _⟩ := blockEntry_bounds cfg w waitForLongPress 6
    rw [getButtonScan_eq_blockEntry]
    omega
  · obtain ⟨_, h2, _⟩ := blockEntry_bounds cfg w false 6
    have h0 := blockEntry_longPress_false cfg w 6
    rw [getButtonScan_eq_blockEntry]
    omega
  · intro hw
    have h := blockEntry_held cfg w hw 5 (by omega)
    simp only [show (5 : Nat) + 1 = 6 from rfl] at h
    obtain ⟨_, h2, _⟩ := h
    rw [getButtonScan_eq_blockEntry]
    omega

/-- Witness of C16 (as amended): all six buttons held, on the sample
constants. -/
theorem getButton_delay_bound_witness :
    (∀ b ∈ scanOrder sampleConfig, ∀ n : Nat, (fun _ => allHeld) n b = sampleConfig.BUTTON_PRESSED) ∧
    (getButtonScan sampleConfig (fun _ => allHeld) true).delayMs
      = 6 * sampleConfig.BUTTON_DEBOUNCE_MS + sampleConfig.BUTTON_LONG_PRESS_MS + 6 :=
  ⟨fun _ _ _ => rfl,
    (getButton_delay_bound sampleConfig (fun _ => allHeld) true).2.2 (fun _ _ _ => rfl)⟩

/-- C18: for every pin-sample stream, `getButton(true)` returns after at most
`BUTTON_LONG_PRESS_MS + 24` pin reads, and the hold counter `longPress` is at
most `BUTTON_LONG_PRESS_MS + k` after `k` blocks, so never more than
`BUTTON_LONG_PRESS_MS + 6`.  With every button asserted for ever the call still
returns, after `BUTTON_LONG_PRESS_MS + 18` reads and with the counter at
`BUTTON_LONG_PRESS_MS + 6`.  The threshold is a natural number, so it is not
negative. -/
theorem getButton_terminates_bounded (cfg : Config) (w : PinSamples) :
    (∀ k, k ≤ 6 → (blockEntry cfg w true k).longPress ≤ cfg.BUTTON_LONG_PRESS_MS + k) ∧
    (getButtonScan cfg w true).longPress ≤ cfg.BUTTON_LONG_PRESS_MS + 6 ∧
    (getButtonScan cfg w true).reads ≤ cfg.BUTTON_LONG_PRESS_MS + 24 ∧
    ((∀ b ∈ scanOrder cfg, ∀ n, w n b = cfg.BUTTON_PRESSED) →
      (getButtonScan cfg w true).longPress = cfg.BUTTON_LONG_PRESS_MS + 6 ∧
      (getButtonScan cfg w true).reads = cfg.BUTTON_LONG_PRESS_MS + 18) := by
  refine ⟨fun k _ => (blockEntry_bounds cfg w true k).1, ?_, ?_, ?_⟩
  · rw [getButtonScan_eq_blockEntry]
    exact (blockEntry_bounds cfg w true 6).1
  · obtain ⟨h1, _, h3⟩ := blockEntry_bounds cfg w true 6
    rw [getButtonScan_eq_blockEntry]
    omega
  · intro hw
    have h := blockEntry_held cfg w hw 5 (by omega)
    simp only [show (5 : Nat) + 1 = 6 from rfl] at h
    obtain ⟨h1, _, h3⟩ := h
    rw [getButtonScan_eq_blockEntry]
    exact ⟨by omega, by omega⟩

/-- Witness of C18: all six buttons held for ever, on the sample constants. -/
theorem getButton_terminates_bounded_witness :
    (∀ b ∈ scanOrder sampleConfig, ∀ n : Nat, (fun _ => allHeld) n b = sampleConfig.BUTTON_PRESSED) ∧
    (getButtonScan sampleConfig (fun _ => allHeld) true).longPress
      = sampleConfig.BUTTON_LONG_PRESS_MS + 6 ∧
    (getButtonScan sampleConfig (fun _ => allHeld) true).reads
      = sampleConfig.BUTTON_LONG_PRESS_MS + 18 :=
  ⟨fun _ _ _ => rfl,
    (getButton_terminates_bounded sampleConfig (fun _ => allHeld)).2.2.2 (fun _ _ _ => rfl)⟩


/-! ## Cursor and frame facts about the editor -/

theorem nextPass_curIndex (s : EditState) : (nextPass s).curIndex = s.curIndex := by
  unfold nextPass blankSentinel writeCursor
  split_ifs <;> rfl

/-- The next pass writes nowhere but under the cursor. -/
theorem nextPass_string_other (s : EditState) (j : Nat) (hj : j ≠ s.curIndex) :
    (nextPass s).string j = s.string j := by
  unfold nextPass blankSentinel writeCursor
  split_ifs
  · rfl
  · exact Function.update_noteq hj _ _
  · rfl

/-- The next pass leaves the buffer alone or replaces a sentinel under the
cursor by a blank. -/
theorem nextPass_string_cases (s : EditState) :
    (nextPass s).string = s.string ∨
    (s.string s.curIndex = 0 ∧ (nextPass s).string = Function.update s.string s.curIndex 32) := by
  unfold nextPass blankSentinel writeCursor
  split_ifs with h1 h2
  · exact Or.inl rfl
  · exact Or.inr ⟨h2, rfl⟩
  · exact Or.inl rfl

/-- No `getButton(false)` result takes the cursor out of the first `chars`
cells. -/
theorem editorStep_curIndex_lt (cfg : Config) (chars : Nat) (s : EditState) (r : Nat)
    (h : s.curIndex < chars) : (editorStep cfg chars s r).curIndex < chars := by
  unfold editorStep
  cases s.phase with
  | returned => exact h
  | release b =>
    simp only
    split_ifs
    · exact h
    · rw [nextPass_curIndex]; exact h
  | poll =>
    simp only
    split_ifs <;> first
      | exact h
      | (rw [nextPass_curIndex]; exact h)
      | (show _ + 1 < chars; omega)
      | (show _ - 1 < chars; omega)

theorem runEditor_curIndex_lt (cfg : Config) (chars : Nat) (readings : List Nat)
    (s : EditState) (h : s.curIndex < chars) :
    (runEditor cfg chars s readings).curIndex < chars := by
  induction readings generalizing s with
  | nil => exact h
  | cons r rs ih =>
    rw [runEditor_cons]
    exact ih _ (editorStep_curIndex_lt cfg chars s r h)

/-- Whatever the result read, only the cell under the cursor can change. -/
theorem editorStep_string_other (cfg : Config) (chars : Nat) (s : EditState) (r j : Nat)
    (hj : j ≠ s.curIndex) : (editorStep cfg chars s r).string j = s.string j := by
  unfold editorStep
  cases s.phase with
  | returned => rfl
  | release b =>
    simp only
    split_ifs
    · rfl
    · exact nextPass_string_other s j hj
  | poll =>
    simp only
    split_ifs <;> first
      | rfl
      | exact (nextPass_string_other (writeCursor s _) j hj).trans
          (Function.update_noteq hj _ _)

/-- Apart from the writes of UP and DOWN, a step leaves the buffer alone or
replaces a sentinel under the cursor by a blank. -/
theorem editorStep_string_cases (cfg : Config) (chars : Nat) (s : EditState) (r : Nat)
    (h : ¬ (s.phase = Phase.poll ∧ (r = cfg.USER_BUTTON_UP ∨ r = cfg.USER_BUTTON_DOWN))) :
    (editorStep cfg chars s r).string = s.string ∨
    (s.string s.curIndex = 0 ∧
      (editorStep cfg chars s r).string = Function.update s.string s.curIndex 32) := by
  unfold editorStep
  cases hp : s.phase with
  | returned => exact Or.inl rfl
  | release b =>
    simp only
    split_ifs
    · exact Or.inl rfl
    · exact nextPass_string_cases s
  | poll =>
    have hU : r ≠ cfg.USER_BUTTON_UP := fun e => h ⟨hp, Or.inl e⟩
    have hD : r ≠ cfg.USER_BUTTON_DOWN := fun e => h ⟨hp, Or.inr e⟩
    simp only [hU, hD, if_false]
    split_ifs <;> exact Or.inl rfl

/-- Cells beyond the largest cursor index reached hold what they held at the
start. -/
theorem runEditor_string_beyond (cfg : Config) (chars : Nat) (readings : List Nat)
    (s : EditState) (j : Nat) (hj : maxCursor cfg chars s readings < j) :
    (runEditor cfg chars s readings).string j = s.string j := by
  induction readings generalizing s with
  | nil => rfl
  | cons r rs ih =>
    simp only [maxCursor] at hj
    rw [runEditor_cons, ih _ (by omega)]
    exact editorStep_string_other cfg chars s r j (by omega)

theorem le_maxCursor (cfg : Config) (chars : Nat) (readings : List Nat) (s : EditState) :
    s.curIndex ≤ maxCursor cfg chars s readings := by
  cases readings with
  | nil => exact Nat.le_refl _
  | cons r rs => simp only [maxCursor]; omega

theorem editorStart_curIndex (retString stack : Nat → Int) (chars : Nat) :
    (editorStart retString stack chars).curIndex = 0 := by
  unfold editorStart
  rw [nextPass_curIndex]

theorem editorStart_string_other (retString stack : Nat → Int) (chars j : Nat) (hj : j ≠ 0) :
    (editorStart retString stack chars).string j
      = if j < chars then retString j else stack j := by
  unfold editorStart
  rw [nextPass_string_other _ j hj]


/-! ## The string editor: claims C17, C19 and C20 -/

/-- C17: for every length `chars ≥ 1` and every finite sequence of `getButton`
results, the cursor starts at 0 and is below `chars` in every state the editor
reaches, so every access to `string[curIndex]` stays inside the first `chars`
cells. -/
theorem getString_cursor_invariant (cfg : Config) (retString stack : Nat → Int) (chars : Nat)
    (readings : List Nat) (hc : 1 ≤ chars) :
    (editorStart retString stack chars).curIndex = 0 ∧
    (runEditor cfg chars (editorStart retString stack chars) readings).curIndex < chars := by
  have h0 := editorStart_curIndex retString stack chars
  exact ⟨h0, runEditor_curIndex_lt cfg chars readings _ (by omega)⟩

/-- Witness of C17: `"AAA"` with RIGHT pressed three times. -/
theorem getString_cursor_invariant_witness :
    1 ≤ 3 ∧
    (editorStart (fun _ => 65) (fun _ => 0) 3).curIndex = 0 ∧
    (runEditor sampleConfig 3 (editorStart (fun _ => 65) (fun _ => 0) 3)
      [4, 0, 4, 0, 4, 0]).curIndex < 3 :=
  ⟨by decide,
    getString_cursor_invariant sampleConfig (fun _ => 65) (fun _ => 0) 3 [4, 0, 4, 0, 4, 0]
      (by decide)⟩

/-- C19: assuming `0 < FIRST_ALLOWED_CHAR ≤ ' ' ≤ LAST_ALLOWED_CHAR < 127`, if
every one of the first `chars` characters of the caller's buffer is allowed,
then after every finite sequence of `getButton` results every one of the first
`chars` cells of the working buffer is allowed, and so is every one of the
first `chars` characters handed back when `getString` returns. -/
theorem getString_preserves_range (cfg : Config) (retString stack : Nat → Int) (chars : Nat)
    (readings : List Nat) (hF : 0 < cfg.FIRST_ALLOWED_CHAR)
    (hF32 : cfg.FIRST_ALLOWED_CHAR ≤ 32) (h32L : 32 ≤ cfg.LAST_ALLOWED_CHAR)
    (hL : cfg.LAST_ALLOWED_CHAR < 127)
    (hbuf : ∀ i, i < chars → allowed cfg (retString i)) :
    (∀ i, i < chars →
      allowed cfg ((runEditor cfg chars (editorStart retString stack chars) readings).string i)) ∧
    (∀ out, getString cfg retString stack chars readings = some out →
      ∀ i, i < chars → allowed cfg (out i)) := by
  have hcells : ∀ i, i < chars →
      allowed cfg ((runEditor cfg chars (editorStart retString stack chars) readings).string i) := by
    intro i hi
    obtain ⟨s1, s2⟩ := bufferOk_editorStart cfg retString stack chars hF32 h32L (by omega)
      (fun k hk => Or.inl (hbuf k hk))
    obtain ⟨⟨_, hc⟩, _⟩ := bufferOk_runEditor cfg retString chars hF hF32 h32L hL readings _ s1 s2
    rcases hc i hi with ha | ⟨_, hz⟩
    · exact ha
    · have := (hbuf i hi).1
      rw [hz] at this
      omega
  refine ⟨hcells, ?_⟩
  intro out hout i hi
  unfold getString at hout
  simp only at hout
  split at hout
  · injection hout with e
    rw [← e]
    simp only [hi, if_true]
    exact hcells i hi
  · exact absurd hout (by simp)

/-- Witness of C19: `"AAA"`, UP, RIGHT, then A pressed and released. -/
theorem getString_preserves_range_witness :
    (0 < sampleConfig.FIRST_ALLOWED_CHAR ∧ sampleConfig.FIRST_ALLOWED_CHAR ≤ 32 ∧
      32 ≤ sampleConfig.LAST_ALLOWED_CHAR ∧ sampleConfig.LAST_ALLOWED_CHAR < 127 ∧
      ∀ i, i < 3 → allowed sampleConfig ((fun _ => (65 : Int)) i)) ∧
    ∀ out, getString sampleConfig (fun _ => 65) (fun _ => 0) 3 [1, 4, 0, 5, 0] = some out →
      ∀ i, i < 3 → allowed sampleConfig (out i) :=
  ⟨⟨by decide, by decide, by decide, by decide,
      fun _ _ => (by decide : allowed sampleConfig 65)⟩,
    (getString_preserves_range sampleConfig (fun _ => 65) (fun _ => 0) 3 [1, 4, 0, 5, 0]
      (by decide) (by decide) (by decide) (by decide)
      (fun _ _ => (by decide : allowed sampleConfig 65))).2⟩

/-- C20: for every caller buffer, length `chars ≥ 1` and finite sequence of
`getButton` results, every position below `chars` and above the largest cursor
index reached holds, in the working buffer and in what `getString` hands back,
exactly the byte the caller supplied, a sentinel 0 included.  Whatever the
result read, and so for an UP or DOWN press, only the cell under the cursor can
change; and apart from the writes of UP and DOWN the only write is the
replacement of 0 by `' '` in the cell under the cursor. -/
theorem getString_frame (cfg : Config) (retString stack : Nat → Int) (chars : Nat)
    (readings : List Nat) (_hc : 1 ≤ chars) :
    (∀ j, maxCursor cfg chars (editorStart retString stack chars) readings < j → j < chars →
      (runEditor cfg chars (editorStart retString stack chars) readings).string j
        = retString j) ∧
    (∀ out, getString cfg retString stack chars readings = some out →
      ∀ j, maxCursor cfg chars (editorStart retString stack chars) readings < j → j < chars →
        out j = retString j) ∧
    (∀ (s : EditState) (r j : Nat), j ≠ s.curIndex →
      (editorStep cfg chars s r).string j = s.string j) ∧
    (∀ (s : EditState) (r : Nat),
      ¬ (s.phase = Phase.poll ∧ (r = cfg.USER_BUTTON_UP ∨ r = cfg.USER_BUTTON_DOWN)) →
      (editorStep cfg chars s r).string = s.string ∨
      (s.string s.curIndex = 0 ∧
        (editorStep cfg chars s r).string = Function.update s.string s.curIndex 32)) := by
  have hcells : ∀ j,
      maxCursor cfg chars (editorStart retString stack chars) readings < j → j < chars →
      (runEditor cfg chars (editorStart retString stack chars) readings).string j
        = retString j := by
    intro j hj hjc
    have h0 := le_maxCursor cfg chars readings (editorStart retString stack chars)
    rw [runEditor_string_beyond cfg chars readings _ j hj,
      editorStart_string_other retString stack chars j (by omega), if_pos hjc]
  refine ⟨hcells, ?_, fun s r j hj => editorStep_string_other cfg chars s r j hj,
    fun s r h => editorStep_string_cases cfg chars s r h⟩
  intro out hout j hj hjc
  unfold getString at hout
  simp only at hout
  split at hout
  · injection hout with e
    rw [← e]
    simp only [hjc, if_true]
    exact hcells j hj hjc
  · exact absurd hout (by simp)

/-- Witness of C20: three sentinels, UP, RIGHT and its release, then A pressed
and released; the cursor never goes beyond cell 1 and cell 2 is still 0. -/
theorem getString_frame_witness :
    1 ≤ 3 ∧
    maxCursor sampleConfig 3 (editorStart (fun _ => 0) (fun _ => 0) 3) [1, 4, 0, 5, 0] < 2 ∧
    (getString sampleConfig (fun _ => 0) (fun _ => 0) 3 [1, 4, 0, 5, 0]).isSome = true ∧
    (runEditor sampleConfig 3 (editorStart (fun _ => 0) (fun _ => 0) 3) [1, 4, 0, 5, 0]).string 2
      = (fun _ => (0 : Int)) 2 :=
  ⟨by decide, by decide, by decide,
    (getString_frame sampleConfig (fun _ => 0) (fun _ => 0) 3 [1, 4, 0, 5, 0] (by decide)).1 2
      (by decide) (by decide)⟩

end Utility
